import Mathlib

/-!
Verification development for the kimi-chat-netlify tool-call pipeline.

The source is TypeScript; we shallow-embed the relevant functions over
`Str := List Char` (JS strings), keeping the source's names where Lean
allows.  JS `Set<string>` is modeled as a duplicate-free `List Str` with
membership test and insertion; JS regular expressions are modeled by
hand-rolled leftmost-match scanners matching the concrete regex literals
of the source.  Numbers inside the calculator are modeled over `ℚ`
(exact rational arithmetic); where JS floating point would produce a
value that is not rational (e.g. `Math.PI`, transcendental functions,
irrational square roots) the model returns `none`, which the surrounding
code treats exactly as the source treats a non-finite result.
-/

namespace KimiChat

/-- JS strings, embedded as lists of characters. -/
abbrev Str := List Char

/-- JS `\s` for the ASCII range (space, tab, newline, CR, FF, VT). -/
def isWsChar (c : Char) : Bool :=
  c = ' ' || c = '\t' || c = '\n' || c = '\x0d' || c = '\x0c' || c = '\x0b'

/-- JS `\w`: ASCII letters, digits and underscore. -/
def isWordChar (c : Char) : Bool :=
  ('a' ≤ c && c ≤ 'z') || ('A' ≤ c && c ≤ 'Z') || ('0' ≤ c && c ≤ '9') || c = '_'

/-- `String.prototype.trim`: strip leading and trailing whitespace. -/
def trimL (s : Str) : Str :=
  ((s.dropWhile isWsChar).reverse.dropWhile isWsChar).reverse

/-- ASCII lower-casing, for the source's `toLowerCase()` and `/i` regex flags. -/
def lowerC (c : Char) : Char :=
  if 'A' ≤ c && c ≤ 'Z' then Char.ofNat (c.toNat + 32) else c

def lowerL (s : Str) : Str := s.map lowerC

/-! ### Client-side tool calls (`src/lib/detectIntent.ts`)

`detectIntent` produces calls whose `arguments` record has one of three
shapes; `Args` enumerates them (the `id` field of the source's `ToolCall`
is a wall-clock/random string, irrelevant to every claim, and is omitted). -/

inductive Args : Type
  | search (query : Str) (max_results : Nat) (scrape_first : Bool)
  | calc (expression : Str) (operation : Str)
  | code (code : Str) (language : Str)
deriving DecidableEq

structure ToolCall : Type where
  name : Str
  arguments : Args
deriving DecidableEq

/-- JSON string escaping as performed by `JSON.stringify` (common escapes). -/
def jsonEscape (s : Str) : Str :=
  s.flatMap fun c =>
    if c = '"' then ['\\', '"']
    else if c = '\\' then ['\\', '\\']
    else if c = '\n' then ['\\', 'n']
    else if c = '\x0d' then ['\\', 'r']
    else if c = '\t' then ['\\', 't']
    else [c]

def jstr (s : Str) : Str := '"' :: jsonEscape s ++ ['"']

def natLit (n : Nat) : Str := (Nat.repr n).data

def boolLit (b : Bool) : Str := if b then "true".data else "false".data

/-- `JSON.stringify(toolCall.arguments)`: keys appear in insertion order,
matching the object literals built by the extractors in `detectIntent.ts`. -/
def serializeArgs : Args → Str
  | .search q m sf =>
      "\x7b\"query\":".data ++ jstr q ++ ",\"max_results\":".data ++ natLit m ++
        ",\"scrape_first\":".data ++ boolLit sf ++ ['\x7d']
  | .calc e op =>
      "\x7b\"expression\":".data ++ jstr e ++ ",\"operation\":".data ++ jstr op ++ ['\x7d']
  | .code c l =>
      "\x7b\"code\":".data ++ jstr c ++ ",\"language\":".data ++ jstr l ++ ['\x7d']

/-- The per-turn identity of a tool call:
`` `${toolCall.name}_${JSON.stringify(toolCall.arguments)}` ``. -/
def toolKey (c : ToolCall) : Str := c.name ++ ('_' :: serializeArgs c.arguments)

/-- `shouldCallTool` from `src/lib/detectIntent.ts`: membership test on the
per-turn set, inserting the key before reporting `true`.  The JS `Set` is
modeled as a list; `Set.add` is `::`. -/
def shouldCallTool (toolCall : ToolCall) (alreadyCalled : List Str) :
    Bool × List Str :=
  let key := toolKey toolCall
  if key ∈ alreadyCalled then (false, alreadyCalled)
  else (true, key :: alreadyCalled)

/-- `executeTool` (page.tsx) applied to each detected call of one assistant
turn in order.  Dispatch to `/api/execTool` happens only when
`shouldCallTool` returns `true`; the returned list collects the identities
actually dispatched. -/
def executeTurn : List ToolCall → List Str → List Str
  | [], _ => []
  | c :: cs, alreadyCalled =>
    match shouldCallTool c alreadyCalled with
    | (true, updated) => toolKey c :: executeTurn cs updated
    | (false, updated) => executeTurn cs updated

theorem executeTurn_fresh :
    ∀ (cs : List ToolCall) (s : List Str),
      (executeTurn cs s).Nodup ∧ ∀ k ∈ executeTurn cs s, k ∉ s := by
  intro cs
  induction cs with
  | nil => intro s; simp [executeTurn]
  | cons c cs ih =>
    intro s
    by_cases h : toolKey c ∈ s
    · have : executeTurn (c :: cs) s = executeTurn cs s := by
        simp [executeTurn, shouldCallTool, h]
      rw [this]
      exact (ih s)
    · have hstep : executeTurn (c :: cs) s = toolKey c :: executeTurn cs (toolKey c :: s) := by
        simp [executeTurn, shouldCallTool, h]
      rw [hstep]
      obtain ⟨hnd, hfresh⟩ := ih (toolKey c :: s)
      refine ⟨List.nodup_cons.mpr ⟨fun hmem => ?_, hnd⟩, ?_⟩
      · exact (hfresh _ hmem) (List.mem_cons_self _ _)
      · intro k hk
        rcases List.mem_cons.mp hk with rfl | hk'
        · exact h
        · intro hks
          exact (hfresh _ hk') (List.mem_cons_of_mem _ hks)

/-! ### Leftmost-match scanning infrastructure

JS regex matching is leftmost-first: the engine tries each start position
from the left and commits to the first position at which the whole pattern
matches.  `scanFirstB att s` does exactly that for an attempt function
`att : Option Char → Str → Option α` that either matches at the start of
the given suffix (returning match data) or fails; the `Option Char` is the
character immediately before the attempted position, needed to decide the
`\b` word-boundary assertions of the source's regexes. -/

def scanFirstB {α : Type} (att : Option Char → Str → Option α) :
    Option Char → Str → Option (Str × α)
  | prev, [] =>
    match att prev [] with
    | some r => some ([], r)
    | none => none
  | prev, c :: rest =>
    match att prev (c :: rest) with
    | some r => some ([], r)
    | none =>
      match scanFirstB att (some c) rest with
      | some (bef, r) => some (c :: bef, r)
      | none => none

/-- If the attempt fails at the start then scanning skips one character. -/
theorem scanFirstB_cons_none {α : Type} (att : Option Char → Str → Option α)
    (prev : Option Char) (c : Char) (rest : Str)
    (h : att prev (c :: rest) = none) :
    scanFirstB att prev (c :: rest) =
      match scanFirstB att (some c) rest with
      | some (bef, r) => some (c :: bef, r)
      | none => none := by
  simp [scanFirstB, h]

/-- If the attempt fails at every suffix position, the scan fails. -/
theorem scanFirstB_none {α : Type} (att : Option Char → Str → Option α) :
    ∀ (s : Str) (prev : Option Char),
      (∀ (p : Option Char) (t : Str), t <:+ s → att p t = none) →
      scanFirstB att prev s = none := by
  intro s
  induction s with
  | nil => intro prev h; simp [scanFirstB, h prev [] List.suffix_rfl]
  | cons c rest ih =>
    intro prev h
    have h0 : att prev (c :: rest) = none := h prev _ List.suffix_rfl
    have hr : scanFirstB att (some c) rest = none := by
      refine ih (some c) ?_
      intro p t ht
      exact h p t (ht.trans (List.suffix_cons c rest))
    simp [scanFirstB, h0, hr]

/-- Skipping a span of characters on which the attempt always fails. -/
theorem scanFirstB_append {α : Type} (att : Option Char → Str → Option α) :
    ∀ (a s : Str) (prev : Option Char),
      (∀ (p : Option Char) (t : Str), t ≠ [] → (t ++ s) <:+ (a ++ s) → t <:+ a →
        att p (t ++ s) = none) →
      scanFirstB att prev (a ++ s) =
        match scanFirstB att (a.getLast?.elim prev some) s with
        | some (bef, r) => some (a ++ bef, r)
        | none => none := by
  intro a
  induction a with
  | nil =>
    intro s prev _
    simp [List.getLast?]
    cases scanFirstB att prev s with
    | none => rfl
    | some x => cases x; rfl
  | cons c a ih =>
    intro s prev h
    simp only [List.cons_append]
    have h0 : att prev (c :: (a ++ s)) = none := by
      have := h prev (c :: a) (by simp) (by simp) List.suffix_rfl
      simpa using this
    have step := scanFirstB_cons_none att prev c (a ++ s) h0
    rw [step, ih s (some c) ?later]
    case later =>
      intro p t ht hsuf hta
      exact h p t ht (hsuf.trans (by simp))
        (hta.trans (List.suffix_cons c a))
    have hlast : (c :: a).getLast?.elim prev some = a.getLast?.elim (some c) some := by
      cases a with
      | nil => simp [List.getLast?]
      | cons d a' =>
        rw [List.getLast?_cons_cons]
        cases h' : (d :: a').getLast? with
        | none => exact absurd (List.getLast?_eq_none_iff.mp h') (by simp)
        | some x => simp
    rw [hlast]
    cases scanFirstB att (a.getLast?.elim (some c) some) s with
    | none => rfl
    | some x => cases x; rfl

/-- First occurrence of a literal pattern: `splitAtFirst pat s = some (bef, aft)`
means `s = bef ++ aft`, `pat` is a prefix of `aft`, and `bef` is shortest. -/
def splitAtFirst (pat : Str) : Str → Option (Str × Str)
  | [] => if pat.isPrefixOf [] then some ([], []) else none
  | c :: rest =>
    if pat.isPrefixOf (c :: rest) then some ([], c :: rest)
    else
      match splitAtFirst pat rest with
      | some (bef, aft) => some (c :: bef, aft)
      | none => none

theorem isPrefixOf_append (l s : Str) : l.isPrefixOf (l ++ s) = true := by
  induction l with
  | nil => simp [List.isPrefixOf]
  | cons c l ih => simp [List.isPrefixOf, ih]

theorem not_isPrefixOf_cons {p : Char} {pt : Str} {c : Char} (t : Str)
    (h : c ≠ p) : (p :: pt).isPrefixOf (c :: t) = false := by
  simp [List.isPrefixOf, Ne.symm h]

/-- If the pattern's first character does not occur in `a`, the first
occurrence of the pattern in `a ++ pat ++ b` is the explicit one. -/
theorem splitAtFirst_append (p : Char) (pt : Str) :
    ∀ (a b : Str), (∀ c ∈ a, c ≠ p) →
      splitAtFirst (p :: pt) (a ++ (p :: pt) ++ b) = some (a, (p :: pt) ++ b) := by
  intro a
  induction a with
  | nil =>
    intro b _
    have : (p :: pt).isPrefixOf ((p :: pt) ++ b) = true := isPrefixOf_append _ _
    simp [splitAtFirst, this]
  | cons c a ih =>
    intro b ha
    have hc : c ≠ p := ha c (List.mem_cons_self _ _)
    have hnp : (p :: pt).isPrefixOf (c :: (a ++ (p :: pt) ++ b)) = false :=
      not_isPrefixOf_cons _ hc
    have := ih b (fun x hx => ha x (List.mem_cons_of_mem _ hx))
    simp only [List.cons_append] at this ⊢
    simp only [splitAtFirst, hnp, Bool.false_eq_true, if_false, this]

/-- If the pattern's first character does not occur in `s` at all (and the
pattern is nonempty), there is no occurrence. -/
theorem splitAtFirst_none (p : Char) (pt : Str) :
    ∀ (s : Str), (∀ c ∈ s, c ≠ p) → splitAtFirst (p :: pt) s = none := by
  intro s
  induction s with
  | nil => simp [splitAtFirst, List.isPrefixOf]
  | cons c rest ih =>
    intro h
    have hc : c ≠ p := h c (List.mem_cons_self _ _)
    have hnp : (p :: pt).isPrefixOf (c :: rest) = false := not_isPrefixOf_cons _ hc
    simp [splitAtFirst, hnp, ih (fun x hx => h x (List.mem_cons_of_mem _ hx))]

/-- Strip an exact literal from the front (the cursor of a recursive-descent
parser over the canonical serialization). -/
def expects : Str → Str → Option Str
  | [], s => some s
  | _ :: _, [] => none
  | l :: lt, c :: rest => if l = c then expects lt rest else none

theorem expects_append (l s : Str) : expects l (l ++ s) = some s := by
  induction l with
  | nil => rfl
  | cons c l ih => simp [expects, ih]

/-- Read a JSON string body: characters up to the first `"`, consuming the
closing quote. -/
def readStr : Str → Option (Str × Str)
  | [] => none
  | c :: rest =>
    if c = '"' then some ([], rest)
    else
      match readStr rest with
      | some (body, aft) => some (c :: body, aft)
      | none => none

theorem readStr_append (body rest : Str) (h : ∀ c ∈ body, c ≠ '"') :
    readStr (body ++ '"' :: rest) = some (body, rest) := by
  induction body with
  | nil => simp [readStr]
  | cons c body ih =>
    have hc : c ≠ '"' := h c (List.mem_cons_self _ _)
    simp [readStr, hc, ih (fun x hx => h x (List.mem_cons_of_mem _ hx))]

/-! ### Server-side tool-call extraction (`src/app/api/chat/route.ts`)

The route scans `message.content` with three regex patterns (complete
`\x7b"tool_calls":[...]\x7d` object; bare array of call objects; individual
call objects), parses the matched JSON, and — when calls were found —
strips the matched encodings from the display text.  Each regex is
embedded as a leftmost-match scanner below; lazy gaps (`[\s\S]*?`)
followed by a closing literal are realised as a search for the first
position where the closing literal matches. -/

def eatWs (s : Str) : Str := s.dropWhile isWsChar

def expectChar (c : Char) : Str → Option Str
  | [] => none
  | x :: rest => if x = c then some rest else none

/-- The literal `\x7b"tool_calls":` that opens pattern 1. -/
def tcLit : Str := "\x7b\"tool_calls\":".data

/-- Pattern 1 `/\x7b"tool_calls":\s*\[([\s\S]*?)\]\x7d/` attempted at the head of
`s`; returns `(group, after)` on success.  The lazy group ends at the first
occurrence of `]\x7d`. -/
def tryP1 (_ : Option Char) (s : Str) : Option (Str × Str) :=
  if tcLit.isPrefixOf s then
    match expectChar '[' (eatWs (s.drop tcLit.length)) with
    | some r2 =>
      match splitAtFirst [']', '\x7d'] r2 with
      | some (g, aft) => some (g, aft.drop 2)
      | none => none
    | none => none
  else none

/-- Leftmost match of pattern 1: `(before, group, after)`. -/
def find1 (s : Str) : Option (Str × Str × Str) :=
  match scanFirstB tryP1 none s with
  | some (bef, g, aft) => some (bef, g, aft)
  | none => none

/-- Lazy gap ended by `\]\s*\x7d`: consume up to and including the first `]`
whose next non-whitespace character is `\x7d`, and that `\x7d`. -/
def closeBrSq : Str → Option Str
  | [] => none
  | c :: rest =>
    if c = ']' then
      match eatWs rest with
      | '\x7d' :: tail => some tail
      | _ => closeBrSq rest
    else closeBrSq rest

/-- Lazy gap ended by `\x7d\s*\x7d`. -/
def closeBrBr : Str → Option Str
  | [] => none
  | c :: rest =>
    if c = '\x7d' then
      match eatWs rest with
      | '\x7d' :: tail => some tail
      | _ => closeBrBr rest
    else closeBrBr rest

/-- Lazy gap ended by a bare `\]` (client-side variant of pattern 2). -/
def closeSq : Str → Option Str
  | [] => none
  | c :: rest => if c = ']' then some rest else closeSq rest

/-- Shared middle of patterns 2 and 3:
`"id":\s*"[^"]*",\s*"type":\s*"function"`, consumed from the head of `s`. -/
def tryIdTypeHead (s : Str) : Option Str := do
  let s ← expects "\"id\":".data s
  let s := eatWs s
  let s ← expectChar '"' s
  let s := s.dropWhile (fun c => !(c = '"'))
  let s ← expectChar '"' s
  let s ← expectChar ',' s
  let s := eatWs s
  let s ← expects "\"type\":".data s
  let s := eatWs s
  expects "\"function\"".data s

/-- Server pattern 2
`/\[\s*\x7b\s*"id":\s*"[^"]*",\s*"type":\s*"function"[\s\S]*?\]\s*\x7d/`,
attempted at the head; returns the remainder after the match. -/
def tryP2srv (_ : Option Char) (s : Str) : Option Str := do
  let s ← expectChar '[' s
  let s := eatWs s
  let s ← expectChar '\x7b' s
  let s := eatWs s
  let s ← tryIdTypeHead s
  closeBrSq s

/-- Client pattern 2
`/\[\s*\x7b\s*"id":\s*"[^"]*",\s*"type":\s*"function"[\s\S]*?\]/g`:
identical head, but the lazy gap ends at the first bare `]`. -/
def tryP2cli (_ : Option Char) (s : Str) : Option Str := do
  let s ← expectChar '[' s
  let s := eatWs s
  let s ← expectChar '\x7b' s
  let s := eatWs s
  let s ← tryIdTypeHead s
  closeSq s

/-- Pattern 3
`/\x7b\s*"id":\s*"[^"]*",\s*"type":\s*"function",\s*"function":\s*\x7b[\s\S]*?\x7d\s*\x7d/g`
attempted at the head; returns the remainder after the match. -/
def tryP3 (_ : Option Char) (s : Str) : Option Str := do
  let s ← expectChar '\x7b' s
  let s := eatWs s
  let s ← tryIdTypeHead s
  let s ← expectChar ',' s
  let s := eatWs s
  let s ← expects "\"function\":".data s
  let s := eatWs s
  let s ← expectChar '\x7b' s
  closeBrBr s

/-- The partial-tool-call test `/\x7b"tool_calls":\s*\[.*$/` (`.` excludes line
terminators, `$` is end of input without the `m` flag). -/
def tryPartial (_ : Option Char) (s : Str) : Option Unit :=
  if tcLit.isPrefixOf s then
    match expectChar '[' (eatWs (s.drop tcLit.length)) with
    | some r2 => if r2.all (fun c => !(c = '\n' || c = '\x0d')) then some () else none
    | none => none
  else none

def partialPat (s : Str) : Bool := (scanFirstB tryPartial none s).isSome

/-! ### Model of the tool-call JSON

Server-extracted calls carry an `id`, a function `name` and a raw
`arguments` string.  `renderCall` is the canonical serialization used by
the OpenAI wire format (`\x7b"id":…,"type":"function","function":\x7b"name":…,
"arguments":…\x7d\x7d`); `parseCall` is the model of `JSON.parse` restricted to
this canonical shape (the theorems only apply it to canonically
serialized markers and to concrete strings, where it agrees with
`JSON.parse`). -/

structure ExtractedCall : Type where
  id : Str
  name : Str
  args : Str
deriving DecidableEq

def callLitA : Str := "\x7b\"id\":\"".data
def callLitB : Str := ",\"type\":\"function\",\"function\":\x7b\"name\":\"".data
def callLitC : Str := ",\"arguments\":\"".data
def callLitD : Str := "\x7d\x7d".data

def renderCall (c : ExtractedCall) : Str :=
  callLitA ++ c.id ++ '"' :: callLitB ++ c.name ++ '"' :: callLitC ++ c.args ++ '"' :: callLitD

def renderCalls : List ExtractedCall → Str
  | [] => []
  | [c] => renderCall c
  | c :: cs => renderCall c ++ ',' :: renderCalls cs

/-- The complete marker `\x7b"tool_calls":[…]\x7d` encoding `cs`. -/
def renderMarker (cs : List ExtractedCall) : Str :=
  tcLit ++ '[' :: renderCalls cs ++ [']', '\x7d']

def parseCall (s : Str) : Option (ExtractedCall × Str) := do
  let s ← expects callLitA s
  let (i, s) ← readStr s
  let s ← expects callLitB s
  let (n, s) ← readStr s
  let s ← expects callLitC s
  let (a, s) ← readStr s
  let s ← expects callLitD s
  some (⟨i, n, a⟩, s)

def parseCallsAux : Nat → Str → Option (List ExtractedCall)
  | _, [] => some []
  | 0, _ :: _ => none
  | fuel + 1, c0 :: rest0 =>
    match parseCall (c0 :: rest0) with
    | none => none
    | some (c, rest) =>
      match rest with
      | [] => some [c]
      | ',' :: r => if r.isEmpty then none else (parseCallsAux fuel r).map (c :: ·)
      | _ => none

/-- `JSON.parse` of `\x7b"tool_calls":[` ++ `g` ++ `]\x7d` followed by reading the
`tool_calls` field, as done for pattern 1. -/
def parseCalls (s : Str) : Option (List ExtractedCall) :=
  parseCallsAux (s.length + 1) s

/-- Parse a single matched call object (pattern 3: `JSON.parse(match)`). -/
def parseCallObj (s : Str) : Option ExtractedCall :=
  match parseCall s with
  | some (c, []) => some c
  | _ => none

/-- `match[0].replace(/\x7d\s*$/, '')` for pattern 2: drop from the first `\x7d`
that is followed only by whitespace up to the end of the string. -/
def stripCloseTail (s : Str) : Str :=
  match scanFirstB (fun _ t =>
      match t with
      | '\x7d' :: rest => if rest.all isWsChar then some () else none
      | _ => none) none s with
  | some (bef, _) => bef
  | none => s

/-- `JSON.parse` of the pattern-2 array text, restricted to the canonical
call-object shape with interspersed whitespace. -/
def parseArrAux : Nat → Str → Option (List ExtractedCall)
  | 0, _ => none
  | fuel + 1, s =>
    match parseCall (eatWs s) with
    | none => none
    | some (c, rest) =>
      match eatWs rest with
      | ']' :: tail => if (eatWs tail).isEmpty then some [c] else none
      | ',' :: tail => (parseArrAux fuel tail).map (c :: ·)
      | _ => none

def parseArrP2 (s : Str) : Option (List ExtractedCall) :=
  match eatWs s with
  | '[' :: rest => parseArrAux (rest.length + 1) rest
  | _ => none

/-- All (non-overlapping, left-to-right) pattern-3 matches, as matched texts
(`content.match(/…/g)`). -/
def findAllP3Aux : Nat → Str → List Str
  | 0, _ => []
  | fuel + 1, s =>
    match scanFirstB tryP3 none s with
    | some (bef, aft) =>
      let rest := s.drop bef.length
      (rest.take (rest.length - aft.length)) :: findAllP3Aux fuel aft
    | none => []

def findAllP3 (s : Str) : List Str := findAllP3Aux (s.length + 1) s

/-- `String.prototype.replace` with a `/g` regex: repeatedly excise the
leftmost match, continuing after it.  (Matches of the patterns used here
are nonempty, so `length + 1` iterations always suffice.) -/
def replaceAllAux (find : Str → Option (Str × Str)) : Nat → Str → Str
  | 0, s => s
  | fuel + 1, s =>
    match find s with
    | some (bef, aft) => bef ++ replaceAllAux find fuel aft
    | none => s

/-- Server-side cleanup of `message.content` (route.ts lines 415-419): one
non-global replace of pattern 1, one of pattern 2, a global replace of
pattern 3, then `trim()`. -/
def cleanupServer (s : Str) : Str :=
  let s1 := match find1 s with | some (b, _, a) => b ++ a | none => s
  let s2 := match scanFirstB tryP2srv none s1 with | some (b, a) => b ++ a | none => s1
  let s3 := replaceAllAux (fun t => scanFirstB tryP3 none t) (s2.length + 1) s2
  trimL s3

/-- `cleanMessageContent` (page.tsx lines 214-220): global replaces of the
three client patterns, then `trim()`. -/
def cleanMessageContent (content : Str) : Str :=
  let s1 := replaceAllAux (fun t => (find1 t).map (fun r => (r.1, r.2.2)))
    (content.length + 1) content
  let s2 := replaceAllAux (fun t => scanFirstB tryP2cli none t) (s1.length + 1) s1
  let s3 := replaceAllAux (fun t => scanFirstB tryP3 none t) (s2.length + 1) s2
  trimL s3

/-- The Partial-Mode completion branch (route.ts lines 332-409) performs a
second network request to the model; its observable outcome — the completed
calls plus the retained prefix text, or nothing — is supplied as an oracle
`po` at the network boundary. -/
def serverExtract (po : Str → Option (List ExtractedCall × Str)) (content : Str) :
    List ExtractedCall × Str :=
  let p1 : List ExtractedCall :=
    match find1 content with
    | some (_, g, _) => (parseCalls g).getD []
    | none => []
  if p1.isEmpty then
    let p2 : List ExtractedCall :=
      match scanFirstB tryP2srv none content with
      | some (bef, aft) =>
        let rest := content.drop bef.length
        (parseArrP2 (stripCloseTail (rest.take (rest.length - aft.length)))).getD []
      | none => []
    if p2.isEmpty then
      let p3 := (findAllP3 content).filterMap parseCallObj
      if p3.isEmpty then
        if partialPat content then
          match po content with
          | some r => r
          | none => ([], content)
        else ([], content)
      else (p3, cleanupServer content)
    else (p2, cleanupServer content)
  else (p1, cleanupServer content)

/-! ### Round-trip facts for canonically serialized markers -/

/-- Characters for which the canonical serialization needs no escaping and
which cannot interfere with any of the route's regex patterns. -/
def okChar (c : Char) : Bool := c.isAlphanum || c = ' '

def SafeCall (c : ExtractedCall) : Prop :=
  c.id.all okChar = true ∧ c.name.all okChar = true ∧ c.args.all okChar = true

def SafeCalls (cs : List ExtractedCall) : Prop := ∀ c ∈ cs, SafeCall c

instance : DecidablePred SafeCall := fun c => by unfold SafeCall; infer_instance

instance (cs : List ExtractedCall) : Decidable (SafeCalls cs) := by
  unfold SafeCalls; infer_instance

theorem all_okChar_ne {s : Str} (h : s.all okChar = true) {d : Char}
    (hd : okChar d = false) : ∀ x ∈ s, x ≠ d := by
  intro x hx he
  subst he
  rw [List.all_eq_true] at h
  rw [h x hx] at hd
  cases hd

theorem not_mem_of_all_okChar {s : Str} (h : s.all okChar = true) {d : Char}
    (hd : okChar d = false) : d ∉ s :=
  fun hm => (all_okChar_ne h hd d hm) rfl

theorem not_mem_renderCall {c : ExtractedCall} {d : Char}
    (hA : d ∉ callLitA) (hB : d ∉ callLitB) (hC : d ∉ callLitC) (hD : d ∉ callLitD)
    (hq : d ≠ '"') (h1 : d ∉ c.id) (h2 : d ∉ c.name) (h3 : d ∉ c.args) :
    d ∉ renderCall c := by
  intro hx
  simp only [renderCall, List.mem_append, List.mem_cons] at hx
  tauto

theorem renderCall_no_rsb {c : ExtractedCall} (h : SafeCall c) :
    ∀ x ∈ renderCall c, x ≠ ']' := by
  obtain ⟨h1, h2, h3⟩ := h
  intro x hx he
  subst he
  exact not_mem_renderCall (by decide) (by decide) (by decide) (by decide) (by decide)
    (not_mem_of_all_okChar h1 (by decide)) (not_mem_of_all_okChar h2 (by decide))
    (not_mem_of_all_okChar h3 (by decide)) hx

theorem renderCalls_no_rsb {cs : List ExtractedCall} (h : SafeCalls cs) :
    ∀ x ∈ renderCalls cs, x ≠ ']' := by
  induction cs with
  | nil => intro x hx; cases hx
  | cons c cs ih =>
    intro x hx
    have hc : SafeCall c := h c (List.mem_cons_self _ _)
    cases cs with
    | nil =>
      exact renderCall_no_rsb hc x hx
    | cons d ds =>
      rw [show renderCalls (c :: d :: ds) = renderCall c ++ ',' :: renderCalls (d :: ds) from rfl,
        List.mem_append, List.mem_cons] at hx
      rcases hx with hx | (rfl | hx)
      · exact renderCall_no_rsb hc x hx
      · decide
      · exact ih (fun e he => h e (List.mem_cons_of_mem _ he)) x hx

theorem parseCall_render (c : ExtractedCall) (rest : Str) (h : SafeCall c) :
    parseCall (renderCall c ++ rest) = some (c, rest) := by
  obtain ⟨h1, h2, h3⟩ := h
  have e1 : renderCall c ++ rest =
      callLitA ++ (c.id ++ '"' :: (callLitB ++ (c.name ++ '"' ::
        (callLitC ++ (c.args ++ '"' :: (callLitD ++ rest)))))) := by
    simp [renderCall]
  rw [parseCall, e1, expects_append]
  simp only [Option.bind_eq_bind, Option.some_bind]
  rw [readStr_append _ _ (all_okChar_ne h1 (by decide))]
  simp only [Option.some_bind]
  rw [expects_append]
  simp only [Option.some_bind]
  rw [readStr_append _ _ (all_okChar_ne h2 (by decide))]
  simp only [Option.some_bind]
  rw [expects_append]
  simp only [Option.some_bind]
  rw [readStr_append _ _ (all_okChar_ne h3 (by decide))]
  simp only [Option.some_bind]
  rw [expects_append]
  simp

theorem renderCall_ne_nil (c : ExtractedCall) : renderCall c ≠ [] := by
  simp [renderCall, callLitA]

theorem renderCalls_ne_nil {cs : List ExtractedCall} (h : cs ≠ []) :
    renderCalls cs ≠ [] := by
  cases cs with
  | nil => exact absurd rfl h
  | cons c cs =>
    cases cs with
    | nil => exact renderCall_ne_nil c
    | cons d ds =>
      rw [show renderCalls (c :: d :: ds) = renderCall c ++ ',' :: renderCalls (d :: ds) from rfl]
      intro he
      exact renderCall_ne_nil c (List.append_eq_nil.mp he).1

theorem parseCallsAux_render (cs : List ExtractedCall) (h : SafeCalls cs) :
    ∀ fuel, cs.length ≤ fuel → parseCallsAux fuel (renderCalls cs) = some cs := by
  induction cs with
  | nil => intro fuel _; cases fuel <;> rfl
  | cons c cs ih =>
    intro fuel hfuel
    have hc : SafeCall c := h c (List.mem_cons_self _ _)
    cases fuel with
    | zero => simp at hfuel
    | succ f =>
      cases cs with
      | nil =>
        have hr : renderCalls [c] = renderCall c ++ [] := by simp [renderCalls]
        obtain ⟨x, xs, hx⟩ : ∃ x xs, renderCall c = x :: xs := by
          cases hrc : renderCall c with
          | nil => exact absurd hrc (renderCall_ne_nil c)
          | cons x xs => exact ⟨x, xs, rfl⟩
        rw [hr, hx]
        rw [show parseCallsAux (f + 1) (x :: xs ++ []) =
          (match parseCall (x :: xs ++ []) with
            | none => none
            | some (c, rest) =>
              match rest with
              | [] => some [c]
              | ',' :: r => if r.isEmpty then none else (parseCallsAux f r).map (c :: ·)
              | _ => none) from rfl]
        rw [show (x :: xs : Str) ++ [] = renderCall c ++ [] by rw [hx]]
        rw [parseCall_render c [] hc]
      | cons d ds =>
        have hr : renderCalls (c :: d :: ds) = renderCall c ++ ',' :: renderCalls (d :: ds) := rfl
        obtain ⟨x, xs, hx⟩ : ∃ x xs, renderCall c = x :: xs := by
          cases hrc : renderCall c with
          | nil => exact absurd hrc (renderCall_ne_nil c)
          | cons x xs => exact ⟨x, xs, rfl⟩
        rw [hr, hx]
        rw [show (x :: xs : Str) ++ ',' :: renderCalls (d :: ds) =
          x :: (xs ++ ',' :: renderCalls (d :: ds)) from rfl]
        rw [show parseCallsAux (f + 1) (x :: (xs ++ ',' :: renderCalls (d :: ds))) =
          (match parseCall (x :: (xs ++ ',' :: renderCalls (d :: ds))) with
            | none => none
            | some (c, rest) =>
              match rest with
              | [] => some [c]
              | ',' :: r => if r.isEmpty then none else (parseCallsAux f r).map (c :: ·)
              | _ => none) from rfl]
        rw [show x :: (xs ++ ',' :: renderCalls (d :: ds)) =
          renderCall c ++ ',' :: renderCalls (d :: ds) by simp [hx]]
        rw [parseCall_render c _ hc]
        have hne : (renderCalls (d :: ds)).isEmpty = false := by
          cases hrr : renderCalls (d :: ds) with
          | nil => exact absurd hrr (renderCalls_ne_nil (by simp))
          | cons y ys => rfl
        simp only [hne, if_false]
        rw [ih (fun e he => h e (List.mem_cons_of_mem _ he)) f (Nat.le_of_succ_le_succ hfuel)]
        rfl

theorem length_le_renderCalls (cs : List ExtractedCall) :
    cs.length ≤ (renderCalls cs).length := by
  induction cs with
  | nil => simp [renderCalls]
  | cons c cs ih =>
    cases cs with
    | nil =>
      have : 1 ≤ (renderCall c).length := by
        cases hrc : renderCall c with
        | nil => exact absurd hrc (renderCall_ne_nil c)
        | cons x xs => simp
      simpa [renderCalls] using this
    | cons d ds =>
      have hrc1 : 1 ≤ (renderCall c).length := by
        cases hrc : renderCall c with
        | nil => exact absurd hrc (renderCall_ne_nil c)
        | cons x xs => simp
      rw [show renderCalls (c :: d :: ds) = renderCall c ++ ',' :: renderCalls (d :: ds) from rfl]
      simp only [List.length_cons, List.length_append] at ih ⊢
      omega

theorem parseCalls_render (cs : List ExtractedCall) (h : SafeCalls cs) :
    parseCalls (renderCalls cs) = some cs :=
  parseCallsAux_render cs h _ (Nat.le_succ_of_le (length_le_renderCalls cs))

/-! ### Where the patterns match on marker-bearing content -/

theorem scanFirstB_head {α : Type} (att : Option Char → Str → Option α)
    (prev : Option Char) (s : Str) (r : α) (h : att prev s = some r) :
    scanFirstB att prev s = some ([], r) := by
  cases s <;> simp [scanFirstB, h]

theorem tryP1_marker (prev : Option Char) (cs : List ExtractedCall) (suf : Str)
    (hbody : ∀ x ∈ renderCalls cs, x ≠ ']') :
    tryP1 prev (renderMarker cs ++ suf) = some (renderCalls cs, suf) := by
  have e : renderMarker cs ++ suf =
      tcLit ++ ('[' :: ((renderCalls cs ++ [']', '\x7d']) ++ suf)) := by
    simp [renderMarker]
  have hsplit := splitAtFirst_append ']' ['\x7d'] (renderCalls cs) suf hbody
  rw [tryP1, e, isPrefixOf_append]
  simp only [if_true]
  rw [List.drop_left]
  have ew : eatWs ('[' :: ((renderCalls cs ++ [']', '\x7d']) ++ suf)) =
      '[' :: ((renderCalls cs ++ [']', '\x7d']) ++ suf) := by
    simp +decide [eatWs, List.dropWhile_cons, isWsChar]
  rw [ew]
  simp only [expectChar, if_pos, reduceIte]
  rw [hsplit]
  rfl

theorem find1_marker (pre suf : Str) (cs : List ExtractedCall)
    (hpre : ∀ x ∈ pre, x ≠ '\x7b') (hbody : ∀ x ∈ renderCalls cs, x ≠ ']') :
    find1 (pre ++ (renderMarker cs ++ suf)) = some (pre, renderCalls cs, suf) := by
  obtain ⟨tl, htl⟩ : ∃ tl, tcLit = '\x7b' :: tl := ⟨"\"tool_calls\":".data, by decide⟩
  rw [find1, scanFirstB_append tryP1 pre _ none ?hskip]
  case hskip =>
    intro p t ht _ hta
    cases t with
    | nil => exact absurd rfl ht
    | cons c t' =>
      have hc : c ≠ '\x7b' := hpre c (hta.subset (List.mem_cons_self _ _))
      rw [tryP1, htl, List.cons_append, not_isPrefixOf_cons _ hc]
      simp
  rw [scanFirstB_head tryP1 _ _ _ (tryP1_marker _ cs suf hbody)]
  simp

theorem find1_none (s : Str) (h : '\x7b' ∉ s) : find1 s = none := by
  obtain ⟨tl, htl⟩ : ∃ tl, tcLit = '\x7b' :: tl := ⟨"\"tool_calls\":".data, by decide⟩
  rw [find1, scanFirstB_none]
  intro p t ht
  cases t with
  | nil => rw [tryP1, htl]; simp [List.isPrefixOf]
  | cons c t' =>
    have hc : c ≠ '\x7b' := by
      intro he; subst he; exact h (ht.subset (List.mem_cons_self _ _))
    rw [tryP1, htl, not_isPrefixOf_cons _ hc]
    simp

theorem scan_tryP2srv_none (s : Str) (h : '[' ∉ s) :
    scanFirstB tryP2srv none s = none := by
  apply scanFirstB_none
  intro p t ht
  cases t with
  | nil => rfl
  | cons c t' =>
    have hc : c ≠ '[' := by
      intro he; subst he; exact h (ht.subset (List.mem_cons_self _ _))
    simp [tryP2srv, expectChar, hc]

theorem scan_tryP2cli_none (s : Str) (h : '[' ∉ s) :
    scanFirstB tryP2cli none s = none := by
  apply scanFirstB_none
  intro p t ht
  cases t with
  | nil => rfl
  | cons c t' =>
    have hc : c ≠ '[' := by
      intro he; subst he; exact h (ht.subset (List.mem_cons_self _ _))
    simp [tryP2cli, expectChar, hc]

theorem scan_tryP3_none (s : Str) (h : '\x7b' ∉ s) :
    scanFirstB tryP3 none s = none := by
  apply scanFirstB_none
  intro p t ht
  cases t with
  | nil => rfl
  | cons c t' =>
    have hc : c ≠ '\x7b' := by
      intro he; subst he; exact h (ht.subset (List.mem_cons_self _ _))
    simp [tryP3, expectChar, hc]

theorem replaceAllAux_none (find : Str → Option (Str × Str)) (n : Nat) (s : Str)
    (h : find s = none) : replaceAllAux find (n + 1) s = s := by
  simp [replaceAllAux, h]

theorem cleanupServer_marker (pre suf : Str) (cs : List ExtractedCall)
    (hpre : ∀ x ∈ pre, x ≠ '\x7b' ∧ x ≠ '[') (hsuf : ∀ x ∈ suf, x ≠ '\x7b' ∧ x ≠ '[')
    (hbody : ∀ x ∈ renderCalls cs, x ≠ ']') :
    cleanupServer (pre ++ (renderMarker cs ++ suf)) = trimL (pre ++ suf) := by
  have hsq : '[' ∉ pre ++ suf := by
    intro hm
    rcases List.mem_append.mp hm with hm | hm
    · exact (hpre _ hm).2 rfl
    · exact (hsuf _ hm).2 rfl
  have hbr : '\x7b' ∉ pre ++ suf := by
    intro hm
    rcases List.mem_append.mp hm with hm | hm
    · exact (hpre _ hm).1 rfl
    · exact (hsuf _ hm).1 rfl
  rw [cleanupServer]
  rw [find1_marker pre suf cs (fun x hx => (hpre x hx).1) hbody]
  simp only
  rw [scan_tryP2srv_none _ hsq]
  simp only
  rw [replaceAllAux_none _ _ _ (scan_tryP3_none _ hbr)]

theorem serverExtract_marker (po : Str → Option (List ExtractedCall × Str))
    (pre suf : Str) (cs : List ExtractedCall) (hcs : cs ≠ []) (hsafe : SafeCalls cs)
    (hpre : ∀ x ∈ pre, x ≠ '\x7b' ∧ x ≠ '[') (hsuf : ∀ x ∈ suf, x ≠ '\x7b' ∧ x ≠ '[') :
    serverExtract po (pre ++ (renderMarker cs ++ suf)) = (cs, trimL (pre ++ suf)) := by
  have hbody : ∀ x ∈ renderCalls cs, x ≠ ']' := renderCalls_no_rsb hsafe
  have hemp : cs.isEmpty = false := by
    cases cs with
    | nil => exact absurd rfl hcs
    | cons c cs => rfl
  rw [serverExtract]
  rw [find1_marker pre suf cs (fun x hx => (hpre x hx).1) hbody]
  simp only [parseCalls_render cs hsafe, Option.getD_some, hemp, Bool.false_eq_true, if_false]
  rw [cleanupServer_marker pre suf cs hpre hsuf hbody]

/-! ### Marker-free content -/

theorem findAllP3_nil (s : Str) (h : scanFirstB tryP3 none s = none) :
    findAllP3 s = [] := by
  rw [findAllP3, findAllP3Aux, h]

theorem serverExtract_noMarkers (po : Str → Option (List ExtractedCall × Str)) (s : Str)
    (h1 : find1 s = none) (h2 : scanFirstB tryP2srv none s = none)
    (h3 : scanFirstB tryP3 none s = none) (hp : partialPat s = false) :
    serverExtract po s = ([], s) := by
  rw [serverExtract, h1, h2]
  simp only [List.isEmpty_nil, if_true]
  rw [findAllP3_nil s h3]
  simp only [List.filterMap_nil, List.isEmpty_nil, if_true, hp]
  rfl

theorem cleanMessageContent_noMarkers (s : Str)
    (h1 : find1 s = none) (h2 : scanFirstB tryP2cli none s = none)
    (h3 : scanFirstB tryP3 none s = none) :
    cleanMessageContent s = trimL s := by
  have e1 : replaceAllAux (fun t => (find1 t).map (fun r => (r.1, r.2.2)))
      (s.length + 1) s = s :=
    replaceAllAux_none _ _ _ (by simp [h1])
  rw [cleanMessageContent, e1, replaceAllAux_none _ _ _ h2, replaceAllAux_none _ _ _ h3]

/-- Membership in a trimmed string implies membership in the original. -/
theorem mem_trimL {x : Char} {s : Str} (h : x ∈ trimL s) : x ∈ s := by
  have h1 := (List.dropWhile_sublist (l := (s.dropWhile isWsChar).reverse) (p := isWsChar)).subset
  have h2 := (List.dropWhile_sublist (l := s) (p := isWsChar)).subset
  rw [trimL] at h
  rw [List.mem_reverse] at h
  have := h1 h
  rw [List.mem_reverse] at this
  exact h2 this

/-! ### Streaming Intent Watcher (`page.tsx` lines 179-211)

On every change of the in-flight assistant message, the effect computes
`newChunk := content.slice(currentResponse.current.length)`; when nonempty
it advances the tracked length, runs `detectIntent(newChunk)` and then
`detectIntent(currentContent)` over the whole buffer.  The state is the
tracked previously-seen content; a step returns the updated state and, when
the content grew, the pair (chunk scan, full-buffer scan) handed to
`detectIntent`. -/

def watcherStep (st content : Str) : Str × Option (Str × Str) :=
  let newChunk := content.drop st.length
  if 0 < newChunk.length then (content, some (newChunk, content)) else (st, none)

def watcherRun : Str → List Str → List (Str × Str)
  | _, [] => []
  | st, content :: rest =>
    match watcherStep st content with
    | (st', none) => watcherRun st' rest
    | (st', some sc) => sc :: watcherRun st' rest

/-- All strings passed to `detectIntent` during a run, in call order. -/
def scannedStrings (l : List (Str × Str)) : List Str :=
  l.flatMap fun p => [p.1, p.2]

/-- The observed contents of a stream that starts at `st` and appends the
given deltas one per step. -/
def accumFrom (st : Str) : List Str → List Str
  | [] => []
  | d :: ds => (st ++ d) :: accumFrom (st ++ d) ds

/-- Expected scan pairs: each step scans its delta as the chunk and the
whole accumulated buffer as the full scan. -/
def deltaScans (st : Str) : List Str → List (Str × Str)
  | [] => []
  | d :: ds => (d, st ++ d) :: deltaScans (st ++ d) ds

theorem watcherRun_accum (ds : List Str) :
    ∀ st, (∀ d ∈ ds, d ≠ []) →
      watcherRun st (accumFrom st ds) = deltaScans st ds := by
  induction ds with
  | nil => intro st _; rfl
  | cons d ds ih =>
    intro st h
    have hd : d ≠ [] := h d (List.mem_cons_self _ _)
    have hdrop : (st ++ d).drop st.length = d := List.drop_left st d
    have hpos : 0 < d.length := by
      cases d with
      | nil => exact absurd rfl hd
      | cons x xs => simp
    rw [accumFrom, watcherRun, watcherStep]
    simp only [hdrop, hpos, if_true]
    rw [deltaScans, ih (st ++ d) (fun e he => h e (List.mem_cons_of_mem _ he))]

theorem map_fst_deltaScans (ds : List Str) :
    ∀ st, (deltaScans st ds).map Prod.fst = ds := by
  induction ds with
  | nil => intro st; rfl
  | cons d ds ih => intro st; simp [deltaScans, ih]

/-! ### Chat-route orchestration (`route.ts` POST)

The network calls are supplied as oracles: the initial non-streaming
completion, the follow-up streaming completion issued after tool
execution, the catch-branch streaming completion, the per-call tool
results, and the Partial-Mode completion.  The response constructors
record which kind of `Response` the handler returned and, for streaming
responses, which message list was sent to the model. -/

inductive Role : Type
  | system | user | assistant | tool
deriving DecidableEq

structure ChatMsg : Type where
  role : Role
  content : Str
  tool_call_id : Option Str := none
deriving DecidableEq

inductive Outcome (α : Type) : Type
  | ok (a : α)
  | err
deriving DecidableEq

/-- The first completion's message: content plus native structured calls. -/
structure ModelMsg : Type where
  content : Str
  tool_calls : List ExtractedCall
deriving DecidableEq

structure ChatOracles : Type where
  first : Outcome ModelMsg
  finalStream : Outcome Unit
  fallbackStream : Outcome Unit
  toolResult : ExtractedCall → Str
  po : Str → Option (List ExtractedCall × Str)

inductive ChatResponse : Type
  | toolFlowStream (messages : List ChatMsg)
  | direct (content : Str)
  | fallbackStream (messages : List ChatMsg)
  | serverError
deriving DecidableEq

/-- One `role:'tool'` message per executed call, tagged with its id. -/
def toolMsgs (o : ChatOracles) (cs : List ExtractedCall) : List ChatMsg :=
  cs.map fun c => { role := .tool, content := o.toolResult c, tool_call_id := some c.id }

/-- The POST handler's control flow: native calls win; otherwise content
extraction; with calls, execute tools, then stream a follow-up completion
over the extended context; any error inside the flow is caught and answered
with a plain streaming completion over the original contextual messages;
if that also fails the outer catch returns a 500. -/
def chatPOST (msgs : List ChatMsg) (o : ChatOracles) : ChatResponse :=
  match o.first with
  | .err =>
    match o.fallbackStream with
    | .ok _ => .fallbackStream msgs
    | .err => .serverError
  | .ok m =>
    let ec := if m.tool_calls.isEmpty then serverExtract o.po m.content
      else (m.tool_calls, m.content)
    if ec.1.isEmpty then .direct ec.2
    else
      match o.finalStream with
      | .ok _ =>
        .toolFlowStream (msgs ++
          ({ role := .assistant, content := ec.2, tool_call_id := none } :: toolMsgs o ec.1))
      | .err =>
        match o.fallbackStream with
        | .ok _ => .fallbackStream msgs
        | .err => .serverError

def responseMsgs : ChatResponse → List ChatMsg
  | .toolFlowStream ms => ms
  | .fallbackStream ms => ms
  | _ => []

theorem chatPOST_final_err (msgs : List ChatMsg) (o : ChatOracles) (m : ModelMsg)
    (hfirst : o.first = .ok m) (hcalls : m.tool_calls.isEmpty = false)
    (hfin : o.finalStream = .err) (hfb : o.fallbackStream = .ok ()) :
    chatPOST msgs o = .fallbackStream msgs := by
  rw [chatPOST, hfirst]
  simp only [hcalls, Bool.false_eq_true, if_false, hfin, hfb]

/-! ### Calculator tool (`src/app/api/tools/calculator/route.ts`)

JS numbers are modeled by exact rational arithmetic; `none` stands for a
JS value that is not a finite rational (`NaN`/`Infinity`, a thrown
evaluation error, or a value such as `Math.PI` or an irrational root that
exact arithmetic cannot represent — the route treats all of these as the
same structured failure via its `isFinite` check and its `catch`).  The
display-only `steps` array of the source's response is omitted.

`Frac` is a normalized fraction kept outside Mathlib's `ℚ` so that every
operation evaluates by kernel reduction; all constructors normalize, so
structural equality is rational equality. -/

structure Frac : Type where
  num : Int
  den : Nat
deriving DecidableEq, Repr

def Frac.norm (n : Int) (d : Nat) : Frac :=
  let g := Nat.gcd n.natAbs d
  if g = 0 then ⟨0, 1⟩ else ⟨n / (g : Int), d / g⟩

def Frac.ofInt (n : Int) : Frac := ⟨n, 1⟩

def Frac.add (a b : Frac) : Frac :=
  Frac.norm (a.num * (b.den : Int) + b.num * (a.den : Int)) (a.den * b.den)

def Frac.sub (a b : Frac) : Frac :=
  Frac.norm (a.num * (b.den : Int) - b.num * (a.den : Int)) (a.den * b.den)

def Frac.mul (a b : Frac) : Frac := Frac.norm (a.num * b.num) (a.den * b.den)

def Frac.div (a b : Frac) : Frac :=
  Frac.norm (a.num * (b.den : Int) * (if b.num < 0 then -1 else 1)) (a.den * b.num.natAbs)

def Frac.neg (a : Frac) : Frac := ⟨-a.num, a.den⟩

def Frac.inv (a : Frac) : Frac :=
  Frac.norm ((a.den : Int) * (if a.num < 0 then -1 else 1)) a.num.natAbs

def Frac.npow (a : Frac) : Nat → Frac
  | 0 => ⟨1, 1⟩
  | n + 1 => Frac.mul a (Frac.npow a n)

def Frac.zpowI (a : Frac) (n : Int) : Frac :=
  if 0 ≤ n then a.npow n.toNat else a.inv.npow (-n).toNat

def Frac.isNeg (a : Frac) : Bool := a.num < 0

def Frac.fabs (a : Frac) : Frac := ⟨(a.num.natAbs : Int), a.den⟩

/-- `⌊a⌋` via flooring integer division. -/
def Frac.ffloor (a : Frac) : Int := Int.fdiv a.num (a.den : Int)

def Frac.fceil (a : Frac) : Int := -(Int.fdiv (-a.num) (a.den : Int))

def half : Frac := ⟨1, 2⟩

def isDigitChar (c : Char) : Bool := '0' ≤ c && c ≤ '9'

/-- `\b` before a pattern that starts with a word character: the previous
character (if any) must not be a word character. -/
def bNotWord : Option Char → Bool
  | none => true
  | some c => !(isWordChar c)

/-- Word character (or end of string) test for a trailing `\b`. -/
def bEndsWord : Str → Bool
  | [] => true
  | c :: _ => !(isWordChar c)

/-- Global replace of `\b<pat>` (pattern starting with a word character,
e.g. `\bsqrt\(`) by `repl`, scanning left to right as `String.replace`
with a `/g` regex does. -/
def replaceWordLitAux (pat repl : Str) : Nat → Option Char → Str → Str
  | 0, _, s => s
  | fuel + 1, prev, s =>
    match s with
    | [] => []
    | c :: rest =>
      if bNotWord prev && pat.isPrefixOf s then
        repl ++ replaceWordLitAux pat repl fuel pat.getLast? (s.drop pat.length)
      else c :: replaceWordLitAux pat repl fuel (some c) rest

/-- Global replace of `\b<pat>\b` (boundaries on both sides, e.g. `\bpi\b`). -/
def replaceWord2Aux (pat repl : Str) : Nat → Option Char → Str → Str
  | 0, _, s => s
  | fuel + 1, prev, s =>
    match s with
    | [] => []
    | c :: rest =>
      if bNotWord prev && pat.isPrefixOf s && bEndsWord (s.drop pat.length) then
        repl ++ replaceWord2Aux pat repl fuel pat.getLast? (s.drop pat.length)
      else c :: replaceWord2Aux pat repl fuel (some c) rest

def replaceWordLit (pat repl s : Str) : Str := replaceWordLitAux pat repl (s.length + 1) none s

def replaceWord2 (pat repl s : Str) : Str := replaceWord2Aux pat repl (s.length + 1) none s

/-- The `cleanExpression` chain of `evaluateExpression`: strip whitespace,
expand `^` to `**`, qualify known function names, expand `pi` and `e`. -/
def cleanExpression (e : Str) : Str :=
  let s := e.filter (fun c => !(isWsChar c))
  let s := s.flatMap (fun c => if c = '^' then ['*', '*'] else [c])
  let s := replaceWordLit "sqrt(".data "Math.sqrt(".data s
  let s := replaceWordLit "sin(".data "Math.sin(".data s
  let s := replaceWordLit "cos(".data "Math.cos(".data s
  let s := replaceWordLit "tan(".data "Math.tan(".data s
  let s := replaceWordLit "log(".data "Math.log10(".data s
  let s := replaceWordLit "ln(".data "Math.log(".data s
  let s := replaceWordLit "abs(".data "Math.abs(".data s
  let s := replaceWordLit "floor(".data "Math.floor(".data s
  let s := replaceWordLit "ceil(".data "Math.ceil(".data s
  let s := replaceWordLit "round(".data "Math.round(".data s
  let s := replaceWord2 "pi".data "Math.PI".data s
  let s := replaceWord2 "e".data "Math.E".data s
  s

/-- The safety gate `/^[0-9+\-*\/().\sMath\w]+$/` (the letters of `Math` are
subsumed by `\w`). -/
def safeChar (c : Char) : Bool :=
  isDigitChar c || c = '+' || c = '-' || c = '*' || c = '/' || c = '(' || c = ')' ||
    c = '.' || isWsChar c || isWordChar c

def safeTest (s : Str) : Bool := !s.isEmpty && s.all safeChar

/-- Integer square root by bounded search (kernel-computable; only applied
to concrete arguments). -/
def natSqrt (n : Nat) : Nat :=
  ((List.range (n + 1)).filter (fun r => r * r ≤ n)).foldl (fun a b => max a b) 0

/-- Exact rational square root, `none` when the result is irrational (or the
argument negative, where JS yields `NaN`). -/
def ratSqrt (q : Frac) : Option Frac :=
  if q.isNeg then none
  else
    let sn := natSqrt q.num.toNat
    let sd := natSqrt q.den
    if sn * sn = q.num.toNat && sd * sd = q.den then some (Frac.norm (sn : Int) sd)
    else none

def natVal (ds : Str) : Nat := ds.foldl (fun a c => 10 * a + (c.toNat - 48)) 0

def natValF (ds : Str) : Frac := ⟨(natVal ds : Int), 1⟩

def fracValF (fs : Str) : Frac := Frac.norm (natVal fs : Int) (10 ^ fs.length)

/-- Number literal: `digits+ ('.' digits*)?` or `'.' digits+`. -/
def parseNumLit : Str → Option (Frac × Str)
  | s =>
    let ds := s.takeWhile isDigitChar
    let s1 := s.dropWhile isDigitChar
    match ds, s1 with
    | [], '.' :: r =>
      let fs := r.takeWhile isDigitChar
      if fs.isEmpty then none else some (fracValF fs, r.dropWhile isDigitChar)
    | [], _ => none
    | _, '.' :: r =>
      let fs := r.takeWhile isDigitChar
      some ((natValF ds).add (fracValF fs), r.dropWhile isDigitChar)
    | _, _ => some (natValF ds, s1)

/-- `Math.round` is `⌊x + 1/2⌋`. -/
def jsRound (q : Frac) : Frac := Frac.ofInt ((q.add half).ffloor)

/-- Known `Math.*` functions after `cleanExpression` rewriting.  The
transcendental ones return `none`: their values are irrational for the
inputs any theorem touches (exact-arithmetic modeling boundary). -/
def applyMathFn (name : Str) (q : Frac) : Option Frac :=
  if name = "Math.sqrt".data then ratSqrt q
  else if name = "Math.abs".data then some q.fabs
  else if name = "Math.floor".data then some (Frac.ofInt q.ffloor)
  else if name = "Math.ceil".data then some (Frac.ofInt q.fceil)
  else if name = "Math.round".data then some (jsRound q)
  else none

/-- Recursive-descent model of the strict-mode `Function` evaluation of the
cleaned expression: `+ - * / ** ( )`, unary signs, number literals and
`Math.*` calls, with JS precedence.  Fuel-indexed; `jsEval` supplies ample
fuel. -/
def parseExprF : Nat → Str → Option (Frac × Str)
  | 0, _ => none
  | fuel + 1, s => do
    let (v, s) ← parseTermF fuel s
    parseExprRestF fuel v s
where
  parseExprRestF : Nat → Frac → Str → Option (Frac × Str)
    | 0, _, _ => none
    | fuel + 1, v, s =>
      match s with
      | '+' :: r => do
        let (w, s') ← parseTermF fuel r
        parseExprRestF fuel (v.add w) s'
      | '-' :: r => do
        let (w, s') ← parseTermF fuel r
        parseExprRestF fuel (v.sub w) s'
      | _ => some (v, s)
  parseTermF : Nat → Str → Option (Frac × Str)
    | 0, _ => none
    | fuel + 1, s => do
      let (v, s) ← parsePowF fuel s
      parseTermRestF fuel v s
  parseTermRestF : Nat → Frac → Str → Option (Frac × Str)
    | 0, _, _ => none
    | fuel + 1, v, s =>
      match s with
      | '*' :: r => do
        let (w, s') ← parsePowF fuel r
        parseTermRestF fuel (v.mul w) s'
      | '/' :: r => do
        let (w, s') ← parsePowF fuel r
        if w.num = 0 then none else parseTermRestF fuel (v.div w) s'
      | _ => some (v, s)
  parsePowF : Nat → Str → Option (Frac × Str)
    | 0, _ => none
    | fuel + 1, s => do
      let (v, s) ← parseUnaryF fuel s
      match s with
      | '*' :: '*' :: r => do
        let (w, s') ← parsePowF fuel r
        if w.den = 1 then
          if v.num = 0 ∧ w.num < 0 then none else some (v.zpowI w.num, s')
        else none
      | _ => some (v, s)
  parseUnaryF : Nat → Str → Option (Frac × Str)
    | 0, _ => none
    | fuel + 1, s =>
      match s with
      | '-' :: r => do
        let (v, s') ← parseUnaryF fuel r
        some (v.neg, s')
      | '+' :: r => parseUnaryF fuel r
      | _ => parsePrimaryF fuel s
  parsePrimaryF : Nat → Str → Option (Frac × Str)
    | 0, _ => none
    | fuel + 1, s =>
      match s with
      | '(' :: r => do
        let (v, s') ← parseExprF fuel r
        match s' with
        | ')' :: s'' => some (v, s'')
        | _ => none
      | c :: _ =>
        if c.isAlpha then
          let nm := s.takeWhile (fun c => c.isAlpha || c = '.')
          let rest := s.dropWhile (fun c => c.isAlpha || c = '.')
          match rest with
          | '(' :: r => do
            let (v, s') ← parseExprF fuel r
            match s' with
            | ')' :: s'' => do
              let w ← applyMathFn nm v
              some (w, s'')
            | _ => none
          | _ => none
        else parseNumLit s
      | [] => none

/-- The `Function('"use strict"; return (…)')()` evaluation, `none` when JS
would throw or produce a value that is not a finite rational. -/
def jsEval (s : Str) : Option Frac :=
  match parseExprF (8 * s.length + 16) s with
  | some (v, []) => some v
  | _ => none

/-- `Number(x.toFixed(10))`. -/
def fix10 (q : Frac) : Frac := Frac.norm ((q.mul ⟨10 ^ 10, 1⟩).add half).ffloor (10 ^ 10)

/-- `Number(x.toFixed(6))`. -/
def fix6 (q : Frac) : Frac := Frac.norm ((q.mul ⟨10 ^ 6, 1⟩).add half).ffloor (10 ^ 6)

/-- Calculator response; `result = some none` models a present but
non-finite/non-rational numeric result (`NaN`), `result = none` an absent
field.  The display-only `steps` array is omitted. -/
structure CalculatorResponse : Type where
  success : Bool
  result : Option (Option Frac)
  error : Option Str
  operation : Str
  expression : Str
deriving DecidableEq

def evaluateExpression (expression : Str) : CalculatorResponse :=
  let cleanExpr := cleanExpression expression
  if !(safeTest cleanExpr) then
    { success := false, result := none,
      error := some "Expression contains invalid characters. Only numbers, operators, and basic math functions are allowed.".data,
      operation := "evaluate".data, expression := expression }
  else
    match jsEval cleanExpr with
    | none =>
      { success := false, result := none,
        error := some "Expression did not evaluate to a valid number".data,
        operation := "evaluate".data, expression := expression }
    | some q =>
      { success := true, result := some (some (fix10 q)), error := none,
        operation := "evaluate".data, expression := expression }

/-- `parseFloat`: skip leading whitespace, optional sign, leading number
(trailing garbage ignored); `none` is `NaN`.  (Exponent suffixes are not
modeled; no input in this development carries one.) -/
def parseFloatF (s : Str) : Option Frac :=
  let t := s.dropWhile isWsChar
  let (sgn, t1) : Frac × Str :=
    match t with
    | '-' :: r => (Frac.ofInt (-1), r)
    | '+' :: r => (Frac.ofInt 1, r)
    | _ => (Frac.ofInt 1, t)
  let ds := t1.takeWhile isDigitChar
  let t2 := t1.dropWhile isDigitChar
  match ds, t2 with
  | [], '.' :: r =>
    let fs := r.takeWhile isDigitChar
    if fs.isEmpty then none else some (sgn.mul (fracValF fs))
  | [], _ => none
  | _, '.' :: r => some (sgn.mul ((natValF ds).add (fracValF (r.takeWhile isDigitChar))))
  | _, _ => some (sgn.mul (natValF ds))

/-- The left-side regex `^(-?\d*)x\s*([+-]\s*\d+)?$` of `solveEquation`:
returns the two capture groups (`group 2` is `none` when absent). -/
def matchLeft (s : Str) : Option (Str × Option Str) :=
  let (g1, s1) : Str × Str :=
    match s with
    | '-' :: r => ('-' :: r.takeWhile isDigitChar, r.dropWhile isDigitChar)
    | _ => (s.takeWhile isDigitChar, s.dropWhile isDigitChar)
  match s1 with
  | 'x' :: s2 =>
    let s3 := s2.dropWhile isWsChar
    match s3 with
    | [] => some (g1, none)
    | c :: r =>
      if c = '+' || c = '-' then
        let ws := r.takeWhile isWsChar
        let r1 := r.dropWhile isWsChar
        let ds := r1.takeWhile isDigitChar
        if ds.isEmpty then none
        else if (r1.dropWhile isDigitChar).isEmpty then some (g1, some (c :: (ws ++ ds)))
        else none
      else none
  | _ => none

def solveEquation (expression : Str) : CalculatorResponse :=
  if !(expression.contains '=') then
    { success := false, result := none,
      error := some "Equation must contain an equals sign (=)".data,
      operation := "solve".data, expression := expression }
  else
    let parts := (expression.splitOn '=').map trimL
    let left := parts.headD []
    let right := (parts.drop 1).headD []
    match matchLeft left, parseFloatF right with
    | some (g1, g2), some rightNum =>
      let a : Option Frac := parseFloatF (if g1.isEmpty then ['1'] else g1)
      let b : Option Frac :=
        match g2 with
        | none => some (Frac.ofInt 0)
        | some t => parseFloatF (t.filter (fun c => !(isWsChar c)))
      if a = some (Frac.ofInt 0) then
        { success := false, result := none,
          error := some "Cannot solve: coefficient of x is zero".data,
          operation := "solve".data, expression := expression }
      else
        let solution : Option Frac := do
          let a0 ← a
          let b0 ← b
          pure ((rightNum.sub b0).div a0)
        { success := true, result := some (solution.map fix6), error := none,
          operation := "solve".data, expression := expression }
    | _, _ =>
      { success := false, result := none,
        error := some "Complex equation solving not implemented. This demo supports basic linear equations in the form ax + b = c".data,
        operation := "solve".data, expression := expression }

def simplifyExpression (expression : Str) : CalculatorResponse :=
  { success := false, result := none,
    error := some "Expression simplification not implemented. This would require a computer algebra system.".data,
    operation := "simplify".data, expression := expression }

def calculateDerivative (expression : Str) : CalculatorResponse :=
  { success := false, result := none,
    error := some "Derivative calculation not implemented. This would require symbolic mathematics capabilities.".data,
    operation := "derivative".data, expression := expression }

def calculateIntegral (expression : Str) : CalculatorResponse :=
  { success := false, result := none,
    error := some "Integral calculation not implemented. This would require symbolic mathematics capabilities.".data,
    operation := "integral".data, expression := expression }

/-- The calculator POST handler: validation, dispatch on `operation`, and
the final `result.operation/expression` overrides; the first component is
the HTTP status. -/
def calculatorPOST (expression operation : Str) : Nat × CalculatorResponse :=
  if expression.isEmpty || operation.isEmpty then
    (400, { success := false, result := none,
            error := some "Missing required fields: expression, operation".data,
            operation := operation, expression := expression })
  else if !((["evaluate", "solve", "simplify", "derivative", "integral"].map
      String.data).contains operation) then
    (400, { success := false, result := none,
            error := some "Invalid operation.".data,
            operation := operation, expression := expression })
  else if 1000 < expression.length then
    (400, { success := false, result := none,
            error := some "Expression too long. Maximum 1,000 characters allowed.".data,
            operation := operation, expression := expression })
  else
    let r :=
      if operation = "evaluate".data then evaluateExpression expression
      else if operation = "solve".data then solveEquation expression
      else if operation = "simplify".data then simplifyExpression expression
      else if operation = "derivative".data then calculateDerivative expression
      else calculateIntegral expression
    (200, { r with operation := operation, expression := expression })

/-! ### WebSearch tool (`src/app/api/tools/websearch/route.ts`)

The DuckDuckGo request is the network boundary: `upstream = none` models a
thrown fetch / timeout / non-ok response (the catch leaves `searchResults`
empty), `upstream = some rs` the results extracted from a successful
response.  The `query` body field is an arbitrary JSON value (`JsVal`);
`max_results` is modeled as an optional number, `none` meaning absent
(the destructuring default `5` applies). -/

inductive JsVal : Type
  | undef
  | jsNull
  | jsBool (b : Bool)
  | jsNum (q : Option Frac)
  | jsStr (s : Str)
  | jsObj
deriving DecidableEq

/-- JS truthiness (`!query` is the negation of this). -/
def truthy : JsVal → Bool
  | .undef => false
  | .jsNull => false
  | .jsBool b => b
  | .jsNum q => match q with | none => false | some x => !(x.num = 0)
  | .jsStr s => !s.isEmpty
  | .jsObj => true

def typeofIsString : JsVal → Bool
  | .jsStr _ => true
  | _ => false

def Frac.blt (a b : Frac) : Bool := a.num * (b.den : Int) < b.num * (a.den : Int)

structure SearchResult : Type where
  title : Str
  url : Str
  snippet : Str
  source : Str
deriving DecidableEq

inductive WsReply : Type
  | fail (status : Nat) (message : Str)
  | success (results : List SearchResult) (query : Str)
deriving DecidableEq

/-- Occurrence test, `String.prototype.includes`. -/
def isInfixB (pat s : Str) : Bool := (splitAtFirst pat s).isSome

def includesCI (pat s : Str) : Bool := isInfixB (lowerL pat) (lowerL s)

def hexDigit (n : Nat) : Char := if n < 10 then Char.ofNat (48 + n) else Char.ofNat (55 + n)

/-- `encodeURIComponent`, modeled for the ASCII range. -/
def encodeURIComponent (s : Str) : Str :=
  s.flatMap fun c =>
    if c.isAlphanum || c = '-' || c = '_' || c = '.' || c = '!' || c = '~' || c = '*' ||
        c = '\'' || c = '(' || c = ')' then [c]
    else ['%', hexDigit (c.toNat / 16 % 16), hexDigit (c.toNat % 16)]

/-- The hard-coded comet/interstellar fallback results. -/
def cometFallback : List SearchResult :=
  [⟨"Comet ATLAS (C/2019 Y4)".data,
    "https://en.wikipedia.org/wiki/C/2019_Y4_(ATLAS)".data,
    "Comet ATLAS (C/2019 Y4) was discovered in December 2019. It was initially predicted to become very bright, but broke apart in 2020.".data,
    "Wikipedia Reference".data⟩,
   ⟨"Comet 2I/Borisov - Interstellar Comet".data,
    "https://en.wikipedia.org/wiki/2I/Borisov".data,
    "2I/Borisov is the second known interstellar object after Oumuamua. It has a nucleus estimated to be 0.2-1.0 km in diameter.".data,
    "Wikipedia Reference".data⟩,
   ⟨"Interstellar Objects and Comets".data,
    "https://www.google.com/search?q=".data ++
      encodeURIComponent "comet atlas interstellar size nucleus".data,
    "Search for current information about interstellar comets and their characteristics including size and nucleus composition.".data,
    "Search Suggestion".data⟩]

/-- The generic search-suggestion fallback result. -/
def genericFallback (query : Str) : List SearchResult :=
  [⟨"Search Results for: ".data ++ query,
    "https://www.google.com/search?q=".data ++ encodeURIComponent query,
    "Based on your query \"".data ++ query ++
      "\", I recommend searching on Google, Wikipedia, or specialized scientific databases for the most current and accurate information.".data,
    "Search Suggestion".data⟩]

/-- The POST handler.  The second component records whether the outbound
DuckDuckGo fetch was attempted. -/
def websearchPOST (query : JsVal) (max_results : Option Frac)
    (upstream : Option (List SearchResult)) : WsReply × Bool :=
  match query with
  | .jsStr q =>
    if q.isEmpty || (trimL q).isEmpty then
      (.fail 400 "Missing or invalid query parameter".data, false)
    else if 500 < q.length then
      (.fail 400 "Query too long. Maximum 500 characters allowed.".data, false)
    else
      let mr := max_results.getD (Frac.ofInt 5)
      if mr.blt (Frac.ofInt 1) || (Frac.ofInt 10).blt mr then
        (.fail 400 "max_results must be between 1 and 10".data, false)
      else
        let fetched : List SearchResult :=
          match upstream with
          | none => []
          | some rs => rs.take mr.ffloor.toNat
        let searchResults :=
          if fetched.isEmpty then
            if includesCI "comet".data q &&
                (isInfixB "3I".data q || includesCI "atlas".data q) then
              cometFallback
            else genericFallback q
          else fetched
        (.success searchResults (trimL q), true)
  | _ =>
    (.fail 400 "Missing or invalid query parameter".data, false)

/-- The claim's notion of an empty query: missing, not a string, or
whitespace-only. -/
def emptyQueryReq (query : JsVal) : Prop :=
  query = .undef ∨ query = .jsNull ∨ (¬ ∃ s, query = .jsStr s) ∨
    ∃ s, query = .jsStr s ∧ trimL s = []

theorem websearchPOST_emptyQuery (query : JsVal) (mr : Option Frac)
    (upstream : Option (List SearchResult)) (h : emptyQueryReq query) :
    websearchPOST query mr upstream =
      (.fail 400 "Missing or invalid query parameter".data, false) := by
  cases query with
  | jsStr s =>
    rcases h with h | h | h | ⟨t, ht, htr⟩
    · cases h
    · cases h
    · exact absurd ⟨s, rfl⟩ h
    · injection ht with hst
      subst hst
      have he : (trimL s).isEmpty = true := by rw [htr]; rfl
      have hcond : (s.isEmpty || (trimL s).isEmpty) = true := by rw [he]; simp
      rw [websearchPOST]
      simp [hcond]
  | undef => rfl
  | jsNull => rfl
  | jsBool b => rfl
  | jsNum q => rfl
  | jsObj => rfl

theorem websearchPOST_degraded (q : Str) (mr : Option Frac)
    (upstream : Option (List SearchResult))
    (hq : ¬ q.isEmpty = true) (htr : ¬ (trimL q).isEmpty = true)
    (hlen : ¬ 500 < q.length)
    (hmr : ¬ (((mr.getD (Frac.ofInt 5)).blt (Frac.ofInt 1) ||
      (Frac.ofInt 10).blt (mr.getD (Frac.ofInt 5))) = true))
    (hup : upstream = none ∨ upstream = some []) :
    ∃ rs, websearchPOST (.jsStr q) mr upstream = (.success rs (trimL q), true) ∧ rs ≠ [] := by
  have hfetched : (match upstream with
      | none => ([] : List SearchResult)
      | some rs => rs.take (mr.getD (Frac.ofInt 5)).ffloor.toNat) = [] := by
    rcases hup with h | h
    · rw [h]
    · rw [h]; simp
  rw [websearchPOST]
  simp only [hq, hlen, hmr, htr, if_false, Bool.false_eq_true, hfetched]
  by_cases hc : (includesCI "comet".data q &&
      (isInfixB "3I".data q || includesCI "atlas".data q)) = true
  · exact ⟨cometFallback, by simp [hc], by simp [cometFallback]⟩
  · refine ⟨genericFallback q, ?_, by simp [genericFallback]⟩
    simp only [Bool.not_eq_true] at hc
    simp [hc]

/-! ### Client-side intent detection (`src/lib/detectIntent.ts`)

Each trigger/extractor regex of `TOOL_PATTERNS` is embedded as a scanner
with JS leftmost-first and alternation-order semantics; `\b` is decided
from the previous character, `.`/`.*?` never cross a line terminator, and
the `/i` flag is realised by comparing lower-cased characters. -/

/-- Suffixes of `s` together with the character preceding each position. -/
def tailsP : Option Char → Str → List (Option Char × Str)
  | prev, [] => [(prev, [])]
  | prev, c :: rest => (prev, c :: rest) :: tailsP (some c) rest

/-- Case-insensitive literal prefix test. -/
def ciPrefix (w t : Str) : Bool := (lowerL w).isPrefixOf (lowerL (t.take w.length))

/-- `\b<w>\b` anchored at the head of `t` (with `prev` the char before). -/
def wordAtCI (w : Str) (prev : Option Char) (t : Str) : Bool :=
  bNotWord prev && ciPrefix w t && bEndsWord (t.drop w.length)

/-- Does some word of `ws` occur with boundaries anywhere in `s`
(`/\b(w1|w2|…)\b/i.test`)? -/
def anyWordCI (ws : List Str) (s : Str) : Bool :=
  (tailsP none s).any fun pt => ws.any fun w => wordAtCI w pt.1 pt.2

/-- After an already matched first word: `.*?\b(w)\b` — a lazy gap that may
not cross a line terminator, then a second bounded word. -/
def gapWord (ws : List Str) : Option Char → Str → Bool
  | prev, [] => ws.any fun w => wordAtCI w prev []
  | prev, c :: rest =>
    (ws.any fun w => wordAtCI w prev (c :: rest)) ||
      (if c = '\n' || c = '\x0d' then false else gapWord ws (some c) rest)

/-- `/\b(A…)\b.*?\b(B…)\b/i.test`. -/
def triggerPairCI (as bs : List Str) (s : Str) : Bool :=
  (tailsP none s).any fun pt =>
    as.any fun w => wordAtCI w pt.1 pt.2 && gapWord bs (w.getLastD ' ') (pt.2.drop w.length)

def wsTrigger (s : Str) : Bool :=
  triggerPairCI (["search", "look up", "google", "find", "query", "research"].map String.data)
    (["for", "about", "regarding", "information"].map String.data) s

def calcTrigger (s : Str) : Bool :=
  anyWordCI (["calculate", "compute", "solve", "evaluate"].map String.data) s

def codeTrigger (s : Str) : Bool :=
  triggerPairCI (["run", "execute", "code"].map String.data)
    (["python", "javascript", "js"].map String.data) s

/-- `/\.(com|org|net|app|io)\b/i.test`. -/
def tldTest (s : Str) : Bool :=
  (tailsP none s).any fun pt =>
    match pt.2 with
    | '.' :: r =>
      (["com", "org", "net", "app", "io"].map String.data).any fun w =>
        ciPrefix w r && bEndsWord (r.drop w.length)
    | _ => false

def needsScraping (text : Str) : Bool :=
  anyWordCI (["purpose", "what is", "what does", "content", "analyze", "summary",
    "details", "meaning", "about"].map String.data) text ||
  tldTest text ||
  anyWordCI ["site".data] text ||
  anyWordCI ["website".data] text

/-- `/["]([^"]+)["]/`: first quoted phrase with a nonempty body. -/
def tryQuoted (_ : Option Char) (t : Str) : Option Str :=
  match t with
  | '"' :: r =>
    let body := r.takeWhile (fun c => !(c = '"'))
    match r.dropWhile (fun c => !(c = '"')) with
    | '"' :: _ => if body.isEmpty then none else some body
    | _ => none
  | _ => none

def quotedMatch (s : Str) : Option Str := (scanFirstB tryQuoted none s).map (·.2)

def notPunc (c : Char) : Bool := !(c = '.' || c = '!' || c = '?')

/-- `\s+([^.!?]+)` after a matched keyword: at least one whitespace
character, then the greedy group (backtracking surrenders one whitespace
character to the group when nothing else is available). -/
def wsGroupAfter (r : Str) : Option Str :=
  let w := r.takeWhile isWsChar
  let rest := r.dropWhile isWsChar
  if w.isEmpty then none
  else
    let g := rest.takeWhile notPunc
    if !g.isEmpty then some g
    else if 2 ≤ w.length then some [w.getLastD ' ']
    else none

/-- `/\b(?:for|about|regarding|information\s+(?:about|on))\s+([^.!?]+)/i`. -/
def tryAfterFor (prev : Option Char) (t : Str) : Option Str :=
  if bNotWord prev then
    (if ciPrefix "for".data t then wsGroupAfter (t.drop 3) else none) <|>
    (if ciPrefix "about".data t then wsGroupAfter (t.drop 5) else none) <|>
    (if ciPrefix "regarding".data t then wsGroupAfter (t.drop 9) else none) <|>
    (if ciPrefix "information".data t then
      let r := t.drop 11
      let ws := r.takeWhile isWsChar
      let rest := r.dropWhile isWsChar
      if ws.isEmpty then none
      else if ciPrefix "about".data rest then wsGroupAfter (rest.drop 5)
      else if ciPrefix "on".data rest then wsGroupAfter (rest.drop 2)
      else none
    else none)
  else none

def afterForMatch (s : Str) : Option Str := (scanFirstB tryAfterFor none s).map (·.2)

def urlClassChar (c : Char) : Bool := c.isAlpha || isDigitChar c || c = '.' || c = '-'

def lowerAlpha (c : Char) : Bool := 'a' ≤ c && c ≤ 'z'

def upperAlpha (c : Char) : Bool := 'A' ≤ c && c ≤ 'Z'

/-- `([a-zA-Z0-9.-]+\.[a-zA-Z]{2,}(?:\/[^\s]*)?)` anchored at the head:
the greedy first run backtracks to the last `.` that leaves at least two
letters. -/
def tryUrlAt (t : Str) : Option Str :=
  let run := t.takeWhile urlClassChar
  (List.range run.length).reverse.findSome? fun L =>
    if 1 ≤ L && run.getD L ' ' = '.' then
      let after := t.drop (L + 1)
      let alphas := after.takeWhile Char.isAlpha
      if 2 ≤ alphas.length then
        let rest := after.drop alphas.length
        let path : Str :=
          match rest with
          | '/' :: p => '/' :: p.takeWhile (fun c => !(isWsChar c))
          | _ => []
        some (t.take (L + 1) ++ alphas ++ path)
      else none
    else none

/-- Lazy `.*?` gap before the URL group; stops at line terminators. -/
def urlGap : Str → Option Str
  | [] => none
  | c :: rest =>
    match tryUrlAt (c :: rest) with
    | some u => some u
    | none => if c = '\n' || c = '\x0d' then none else urlGap rest

/-- `/\b(?:find|search|look up|analyze|check)\b.*?(url…)/i`. -/
def tryUrlVerb (prev : Option Char) (t : Str) : Option Str :=
  (["find", "search", "look up", "analyze", "check"].map String.data).findSome? fun w =>
    if wordAtCI w prev t then urlGap (t.drop w.length) else none

def urlMatchRes (s : Str) : Option Str := (scanFirstB tryUrlVerb none s).map (·.2)

/-- `/\b(?:comet|asteroid)\s+([^.!?]+)/i`. -/
def tryComet (prev : Option Char) (t : Str) : Option Str :=
  if bNotWord prev then
    (if ciPrefix "comet".data t then wsGroupAfter (t.drop 5) else none) <|>
    (if ciPrefix "asteroid".data t then wsGroupAfter (t.drop 8) else none)
  else none

def cometMatchRes (s : Str) : Option Str := (scanFirstB tryComet none s).map (·.2)

def classObjA (c : Char) : Bool := upperAlpha c || isDigitChar c

def classObjSep (c : Char) : Bool := c = '/' || c = '-' || isWsChar c

def classObjB (c : Char) : Bool := c.isAlpha || isDigitChar c

/-- Greedy `(?:\s+[A-Z][a-z]+)*` continuation of the capitalized-words
alternative. -/
def objTailAux : Nat → Str → Str
  | 0, _ => []
  | fuel + 1, s =>
    let w := s.takeWhile isWsChar
    if w.isEmpty then []
    else
      match s.dropWhile isWsChar with
      | c :: rest =>
        if upperAlpha c then
          let r := rest.takeWhile lowerAlpha
          if r.isEmpty then []
          else w ++ c :: r ++ objTailAux fuel (rest.drop r.length)
        else []
      | [] => []

def objTail (s : Str) : Str := objTailAux (s.length + 1) s

/-- `/\b([A-Z0-9]+[\/\-\s][A-Za-z0-9]+|[A-Z][a-z]+(?:\s+[A-Z][a-z]+)*)/`
(case-sensitive).  For the first alternative only the maximal `[A-Z0-9]+`
run can be followed by a separator, so no backtracking arises. -/
def tryObj (prev : Option Char) (t : Str) : Option Str :=
  if bNotWord prev then
    (let r1 := t.takeWhile classObjA
     if r1.isEmpty then none
     else
       match t.drop r1.length with
       | c :: rest =>
         if classObjSep c then
           let r2 := rest.takeWhile classObjB
           if r2.isEmpty then none else some (r1 ++ c :: r2)
         else none
       | [] => none) <|>
    (match t with
     | c :: rest =>
       if upperAlpha c then
         let r := rest.takeWhile lowerAlpha
         if r.isEmpty then none
         else some (c :: r ++ objTail (rest.drop r.length))
       else none
     | [] => none)
  else none

def objMatchRes (s : Str) : Option Str := (scanFirstB tryObj none s).map (·.2)

/-- The WebSearch extractor: quoted phrase, "for/about/…" tail, URL,
comet/asteroid, capitalized object name — in source order. -/
def wsExtract (text : Str) : Option Args :=
  let ns := needsScraping text
  match quotedMatch text with
  | some q => some (.search q 3 ns)
  | none =>
    match afterForMatch text with
    | some g => some (.search (trimL g) 3 ns)
    | none =>
      match urlMatchRes text with
      | some url => some (.search ("site:".data ++ url ++ " OR ".data ++ url) 3 true)
      | none =>
        match cometMatchRes text with
        | some g => some (.search ("comet ".data ++ trimL g) 3 ns)
        | none =>
          match objMatchRes text with
          | some g => some (.search (trimL g) 3 ns)
          | none => none

/-- `/(?:calculate|compute|solve|evaluate)\s+([^.!?]+)/i` — note: no `\b`. -/
def tryCalcExpr (_ : Option Char) (t : Str) : Option Str :=
  (if ciPrefix "calculate".data t then wsGroupAfter (t.drop 9) else none) <|>
  (if ciPrefix "compute".data t then wsGroupAfter (t.drop 7) else none) <|>
  (if ciPrefix "solve".data t then wsGroupAfter (t.drop 5) else none) <|>
  (if ciPrefix "evaluate".data t then wsGroupAfter (t.drop 8) else none)

def calcExtract (text : Str) : Option Args :=
  ((scanFirstB tryCalcExpr none text).map (·.2)).map fun g =>
    .calc (trimL g) "evaluate".data

/-- ``/```(\w+)?\s*([\s\S]*?)```/``: fenced code block with optional
language word. -/
def tryCodeBlock (_ : Option Char) (t : Str) : Option (Option Str × Str) :=
  if ("\x60\x60\x60".data).isPrefixOf t then
    let r := t.drop 3
    let lang := r.takeWhile isWordChar
    let r1 := (r.drop lang.length).dropWhile isWsChar
    match splitAtFirst "\x60\x60\x60".data r1 with
    | some (body, _) => some ((if lang.isEmpty then none else some lang), body)
    | none => none
  else none

def codeExtract (text : Str) : Option Args :=
  ((scanFirstB tryCodeBlock none text).map (·.2)).map fun lc =>
    .code (trimL lc.2) (lowerL (lc.1.getD "javascript".data))

structure IntentPattern : Type where
  name : Str
  trigger : Str → Bool
  extractor : Str → Option Args

def TOOL_PATTERNS : List IntentPattern :=
  [⟨"WebSearch".data, wsTrigger, wsExtract⟩,
   ⟨"Calculator".data, calcTrigger, calcExtract⟩,
   ⟨"CodeRunner".data, codeTrigger, codeExtract⟩]

/-- The `detectIntent` loop: first pattern whose trigger matches *and*
whose extractor succeeds wins; a matching trigger with a failing extractor
falls through to the next pattern.  (The random `id` field is omitted.) -/
def detectIntentAux : List IntentPattern → Str → Option ToolCall
  | [], _ => none
  | p :: ps, text =>
    if p.trigger text then
      match p.extractor text with
      | some args => some ⟨p.name, args⟩
      | none => detectIntentAux ps text
    else detectIntentAux ps text

def detectIntent (text : Str) : Option ToolCall := detectIntentAux TOOL_PATTERNS text

/-! ## Claims -/

/-- C1: within one assistant turn, every detected tool call is dispatched to
the tool endpoint at most once per call identity (name plus serialized
arguments): the executed identities of a turn are duplicate-free however
often the same call is detected, and `shouldCallTool` inserts the identity
into the per-turn set before it allows dispatch. -/
theorem nodup_count_le_one {l : List Str} (h : l.Nodup) (k : Str) : l.count k ≤ 1 := by
  induction l with
  | nil => simp
  | cons a l ih =>
    rcases List.nodup_cons.mp h with ⟨ha, hl⟩
    rw [List.count_cons]
    by_cases hk : a = k
    · subst hk
      have hz : List.count a l = 0 := List.count_eq_zero.mpr ha
      simp [hz]
    · simp [hk, ih hl]

theorem C1_dedup_at_most_once :
    (∀ (cs : List ToolCall) (k : Str), (executeTurn cs []).count k ≤ 1) ∧
    (∀ (c : ToolCall) (s : List Str), (shouldCallTool c s).1 = true →
      toolKey c ∈ (shouldCallTool c s).2) := by
  constructor
  · intro cs k
    exact nodup_count_le_one (executeTurn_fresh cs []).1 k
  · intro c s h
    rw [shouldCallTool] at h ⊢
    by_cases hm : toolKey c ∈ s
    · simp [hm] at h
    · simp [hm]

/-- Witness for C1's second conjunct at a concrete call and empty set. -/
theorem C1_dedup_witness :
    toolKey ⟨"Calculator".data, .calc ['2'] ['e']⟩ ∈
      (shouldCallTool ⟨"Calculator".data, .calc ['2'] ['e']⟩ []).2 :=
  C1_dedup_at_most_once.2 ⟨"Calculator".data, .calc ['2'] ['e']⟩ [] (by decide)

def cexCall : ExtractedCall := ⟨['a'], "WebSearch".data, ['q']⟩

def cexMarker : Str := renderMarker [cexCall]

/-- C2 counterexample: for content consisting of the same complete,
well-formed `\x7b"tool_calls":[…]\x7d` marker twice, extraction does return the
encoded call, but the cleaned display text is `\x7b"tool_calls":` — a nonempty
leftover that is a substring of the original marker (the cleanup replaces
of patterns 1 and 2 are not global and dismember the second copy), so the
cleaned text is not free of marker substrings as claimed. -/
theorem C2_counterexample :
    serverExtract (fun _ => none) (cexMarker ++ cexMarker) =
      ([cexCall], "\x7b\"tool_calls\":".data) ∧
    "\x7b\"tool_calls\":".data ≠ [] ∧
    "\x7b\"tool_calls\":".data <:+: cexMarker := by decide

/-- C2 (amended): for content `pre ++ marker ++ suf` containing exactly one
canonically serialized `\x7b"tool_calls":[…]\x7d` marker of a nonempty call
list — with fields over unescaped text characters and with no `\x7b` or `[`
in the surrounding text, so that no other pattern occurrence overlaps the
marker — extraction returns exactly the encoded calls, the cleaned display
text is the surrounding text (trimmed) with the marker excised entirely,
and the marker does not occur in the cleaned text. -/
theorem C2_amended (po : Str → Option (List ExtractedCall × Str))
    (pre suf : Str) (cs : List ExtractedCall) (hcs : cs ≠ []) (hsafe : SafeCalls cs)
    (hpre : ∀ x ∈ pre, x ≠ '\x7b' ∧ x ≠ '[') (hsuf : ∀ x ∈ suf, x ≠ '\x7b' ∧ x ≠ '[') :
    serverExtract po (pre ++ (renderMarker cs ++ suf)) = (cs, trimL (pre ++ suf)) ∧
    ¬ renderMarker cs <:+: trimL (pre ++ suf) := by
  refine ⟨serverExtract_marker po pre suf cs hcs hsafe hpre hsuf, ?_⟩
  intro hinf
  have hhead : '\x7b' ∈ renderMarker cs := by
    rw [renderMarker]
    exact List.mem_append.mpr (Or.inl (List.mem_append.mpr (Or.inl (by decide))))
  have hmem : '\x7b' ∈ trimL (pre ++ suf) := hinf.subset hhead
  rcases List.mem_append.mp (mem_trimL hmem) with h | h
  · exact (hpre _ h).1 rfl
  · exact (hsuf _ h).1 rfl

/-- Witness for C2's amended theorem at a concrete prefixed marker. -/
theorem C2_amended_witness :
    serverExtract (fun _ => none) ("Sure: ".data ++ (renderMarker [cexCall] ++ [])) =
      ([cexCall], trimL ("Sure: ".data ++ [])) ∧
    ¬ renderMarker [cexCall] <:+: trimL ("Sure: ".data ++ []) :=
  C2_amended (fun _ => none) "Sure: ".data [] [cexCall] (by decide)
    (by decide) (by decide) (by decide)

/-- C3 counterexample: the input `" hi "` matches none of the tool-call
patterns, and server extraction indeed returns zero calls with the content
unchanged; but the client's `cleanMessageContent` ends in `.trim()`, so its
display text `"hi"` is not character-for-character equal to the input. -/
theorem C3_counterexample :
    (find1 " hi ".data = none ∧
     scanFirstB tryP2srv none " hi ".data = none ∧
     scanFirstB tryP2cli none " hi ".data = none ∧
     scanFirstB tryP3 none " hi ".data = none ∧
     partialPat " hi ".data = false) ∧
    serverExtract (fun _ => none) " hi ".data = ([], " hi ".data) ∧
    cleanMessageContent " hi ".data = "hi".data ∧
    "hi".data ≠ " hi ".data := by decide

/-- C3 (amended): on input matching none of the tool-call patterns, server
extraction returns zero calls and leaves the content untouched, and the
client display text equals the input trimmed of leading and trailing
whitespace (hence equals the input exactly whenever the input carries no
outer whitespace). -/
theorem C3_amended (po : Str → Option (List ExtractedCall × Str)) (s : Str)
    (h1 : find1 s = none) (h2 : scanFirstB tryP2srv none s = none)
    (h2c : scanFirstB tryP2cli none s = none) (h3 : scanFirstB tryP3 none s = none)
    (hp : partialPat s = false) :
    serverExtract po s = ([], s) ∧ cleanMessageContent s = trimL s :=
  ⟨serverExtract_noMarkers po s h1 h2 h3 hp, cleanMessageContent_noMarkers s h1 h2c h3⟩

/-- Witness for C3's amended theorem on marker-free text. -/
theorem C3_amended_witness :
    serverExtract (fun _ => none) "hello world".data = ([], "hello world".data) ∧
    cleanMessageContent "hello world".data = trimL "hello world".data :=
  C3_amended (fun _ => none) "hello world".data (by decide) (by decide) (by decide)
    (by decide) (by decide)

def cexUserMsg : ChatMsg := ⟨.user, "hi".data, none⟩

def cexOracles : ChatOracles :=
  { first := .ok ⟨[], [⟨['i'], "WebSearch".data, ['q']⟩]⟩
    finalStream := .err
    fallbackStream := .ok ()
    toolResult := fun _ => "ok".data
    po := fun _ => none }

/-- C4 counterexample: with tool calls executed and the follow-up
completion failing, the handler answers with a fresh *streaming model
completion over the original contextual messages* — a model-synthesized
response that carries no tool-role message at all — rather than displaying
the last known tool results without a model summary as the claim states. -/
theorem C4_counterexample :
    chatPOST [cexUserMsg] cexOracles = .fallbackStream [cexUserMsg] ∧
    (∀ m ∈ responseMsgs (chatPOST [cexUserMsg] cexOracles), m.role ≠ .tool) ∧
    chatPOST [cexUserMsg] cexOracles ≠ .serverError := by decide

/-- C4 (amended): if the follow-up completion after tool execution fails,
the turn does not fail — the route catches the error and falls back to a
plain streaming completion over the original contextual messages; that
fallback is a fresh model request whose context excludes the tool results
(only if this fallback also fails does the handler return an error). -/
theorem C4_amended (msgs : List ChatMsg) (o : ChatOracles) (m : ModelMsg)
    (hfirst : o.first = .ok m) (hcalls : m.tool_calls.isEmpty = false)
    (hfin : o.finalStream = .err) (hfb : o.fallbackStream = .ok ())
    (hnotool : ∀ mm ∈ msgs, mm.role ≠ .tool) :
    chatPOST msgs o = .fallbackStream msgs ∧
    chatPOST msgs o ≠ .serverError ∧
    (∀ mm ∈ responseMsgs (chatPOST msgs o), mm.role ≠ .tool) := by
  have h := chatPOST_final_err msgs o m hfirst hcalls hfin hfb
  refine ⟨h, by rw [h]; simp, ?_⟩
  rw [h]
  exact hnotool

/-- Witness for C4's amended theorem at the concrete failing-follow-up run. -/
theorem C4_amended_witness :
    chatPOST [cexUserMsg] cexOracles = .fallbackStream [cexUserMsg] ∧
    chatPOST [cexUserMsg] cexOracles ≠ .serverError ∧
    (∀ mm ∈ responseMsgs (chatPOST [cexUserMsg] cexOracles), mm.role ≠ .tool) :=
  C4_amended [cexUserMsg] cexOracles ⟨[], [⟨['i'], "WebSearch".data, ['q']⟩]⟩
    rfl (by decide) rfl rfl (by decide)

/-- C5: the calculator's evaluate operation yields 4 on `"2 + 2"` and 4 on
`"sqrt(16)"` as success responses, and on every unsafe (safety-gate
failing) or non-numeric (evaluation not producing a finite number) input
it returns a structured failure — `success := false` with an error message
— and, being a total function, never throws to the caller. -/
theorem C5_calculator_evaluate :
    evaluateExpression "2 + 2".data =
      { success := true, result := some (some ⟨4, 1⟩), error := none,
        operation := "evaluate".data, expression := "2 + 2".data } ∧
    evaluateExpression "sqrt(16)".data =
      { success := true, result := some (some ⟨4, 1⟩), error := none,
        operation := "evaluate".data, expression := "sqrt(16)".data } ∧
    (∀ e : Str, safeTest (cleanExpression e) = false ∨ jsEval (cleanExpression e) = none →
      (evaluateExpression e).success = false ∧ (evaluateExpression e).error.isSome = true) := by
  refine ⟨by decide, by decide, ?_⟩
  intro e h
  rw [evaluateExpression]
  rcases h with h | h
  · simp [h]
  · cases hs : safeTest (cleanExpression e) with
    | false => simp [hs]
    | true => simp [hs, h]

/-- Witness for C5's universal conjunct at a concrete unsafe expression. -/
theorem C5_calculator_witness :
    (evaluateExpression "hello@#".data).success = false ∧
    (evaluateExpression "hello@#".data).error.isSome = true :=
  C5_calculator_evaluate.2.2 "hello@#".data (Or.inl (by decide))

/-- C6: the calculator's solve operation on `"2x + 3 = 7"` succeeds with
solution 2, and the other operations (simplify, derivative, integral)
deterministically return a structured failure whose error message contains
"not implemented", never crashing (they are constant total functions). -/
theorem C6_calculator_solve :
    solveEquation "2x + 3 = 7".data =
      { success := true, result := some (some ⟨2, 1⟩), error := none,
        operation := "solve".data, expression := "2x + 3 = 7".data } ∧
    (∀ e : Str, (simplifyExpression e).success = false ∧
      ∃ m, (simplifyExpression e).error = some m ∧ "not implemented".data <:+: m) ∧
    (∀ e : Str, (calculateDerivative e).success = false ∧
      ∃ m, (calculateDerivative e).error = some m ∧ "not implemented".data <:+: m) ∧
    (∀ e : Str, (calculateIntegral e).success = false ∧
      ∃ m, (calculateIntegral e).error = some m ∧ "not implemented".data <:+: m) := by
  refine ⟨by decide, fun e => ⟨rfl, ⟨_, rfl, by decide⟩⟩,
    fun e => ⟨rfl, ⟨_, rfl, by decide⟩⟩, fun e => ⟨rfl, ⟨_, rfl, by decide⟩⟩⟩

/-- C7: a web-search request whose query is missing, not a string, or
whitespace-only is rejected with the 400 validation error, and the
outbound network call to the search provider is never attempted (the
second component of the handler's result records the fetch attempt). -/
theorem C7_empty_query_rejected (query : JsVal) (mr : Option Frac)
    (upstream : Option (List SearchResult)) (h : emptyQueryReq query) :
    websearchPOST query mr upstream =
      (.fail 400 "Missing or invalid query parameter".data, false) :=
  websearchPOST_emptyQuery query mr upstream h

/-- Witness for C7 at a whitespace-only query. -/
theorem C7_empty_query_witness :
    websearchPOST (.jsStr " ".data) none none =
      (.fail 400 "Missing or invalid query parameter".data, false) :=
  C7_empty_query_rejected (.jsStr " ".data) none none
    (Or.inr (Or.inr (Or.inr ⟨" ".data, rfl, by decide⟩)))

/-- C8: for every valid web-search request, when the upstream provider
fails (`upstream = none`) or yields no usable results (`upstream = some []`),
the endpoint still returns a success reply carrying a nonempty best-effort
fallback result list. -/
theorem C8_degraded_results (q : Str) (mr : Option Frac)
    (upstream : Option (List SearchResult))
    (hq : ¬ q.isEmpty = true) (htr : ¬ (trimL q).isEmpty = true)
    (hlen : ¬ 500 < q.length)
    (hmr : ¬ (((mr.getD (Frac.ofInt 5)).blt (Frac.ofInt 1) ||
      (Frac.ofInt 10).blt (mr.getD (Frac.ofInt 5))) = true))
    (hup : upstream = none ∨ upstream = some []) :
    ∃ rs, websearchPOST (.jsStr q) mr upstream = (.success rs (trimL q), true) ∧ rs ≠ [] :=
  websearchPOST_degraded q mr upstream hq htr hlen hmr hup

/-- Witness for C8 at a concrete query with a failing upstream. -/
theorem C8_degraded_witness :
    ∃ rs, websearchPOST (.jsStr "capital of France".data) none none =
      (.success rs (trimL "capital of France".data), true) ∧ rs ≠ [] :=
  C8_degraded_results "capital of France".data none none (by decide) (by decide)
    (by decide) (by decide) (Or.inl rfl)

/-- C9 counterexample: on the stream `"ab"` then `"abcd"`, the watcher
passes to `detectIntent` the strings `ab, ab, cd, abcd`: the first delta
`"ab"` is scanned twice already in its own step (chunk scan plus
full-buffer scan), and the second step's full-buffer scan `"abcd"` starts
from the beginning of the buffer, re-covering the previously scanned
prefix `"ab"` — contradicting "scanned exactly once" and "not reprocessed
from the start of the buffer". -/
theorem C9_counterexample :
    watcherRun [] ["ab".data, "abcd".data] =
      [("ab".data, "ab".data), ("cd".data, "abcd".data)] ∧
    scannedStrings (watcherRun [] ["ab".data, "abcd".data]) =
      ["ab".data, "ab".data, "cd".data, "abcd".data] ∧
    (scannedStrings (watcherRun [] ["ab".data, "abcd".data])).count "ab".data = 2 ∧
    "ab".data <+: "abcd".data := by decide

/-- C9 (amended): the watcher tracks the length of previously seen content,
so across a stream of nonempty deltas each delta is scanned as a *new
chunk* exactly once — the chunk scans are precisely the deltas, never
overlapping previously scanned text — while additionally a full-buffer
scan (which does reprocess the accumulated content from the start) runs on
every step; duplicate execution is prevented downstream by the dedup
guard, not by the scanner. -/
theorem C9_amended (ds : List Str) (st : Str) (h : ∀ d ∈ ds, d ≠ []) :
    watcherRun st (accumFrom st ds) = deltaScans st ds ∧
    (watcherRun st (accumFrom st ds)).map Prod.fst = ds := by
  refine ⟨watcherRun_accum ds st h, ?_⟩
  rw [watcherRun_accum ds st h]
  exact map_fst_deltaScans ds st

/-- Witness for C9's amended theorem on a concrete two-delta stream. -/
theorem C9_amended_witness :
    watcherRun [] (accumFrom [] ["ab".data, "cd".data]) =
      deltaScans [] ["ab".data, "cd".data] ∧
    (watcherRun [] (accumFrom [] ["ab".data, "cd".data])).map Prod.fst =
      ["ab".data, "cd".data] :=
  C9_amended ["ab".data, "cd".data] [] (by decide)

/-- C10: `detectIntent` tries WebSearch, Calculator, CodeRunner in that
fixed order and returns the call of the first pattern whose trigger
matches and whose extractor succeeds (`null` if none); consequently every
returned call is named by one of exactly these three tools, and a text
matching several patterns yields the earliest-listed one. -/
theorem C10_detectIntent_order :
    (∀ (t : Str) (c : ToolCall), detectIntent t = some c →
      c.name = "WebSearch".data ∨ c.name = "Calculator".data ∨ c.name = "CodeRunner".data) ∧
    (∀ (t : Str) (a : Args), wsTrigger t = true → wsExtract t = some a →
      detectIntent t = some ⟨"WebSearch".data, a⟩) ∧
    (∀ (t : Str) (a : Args), (wsTrigger t = false ∨ wsExtract t = none) →
      calcTrigger t = true → calcExtract t = some a →
      detectIntent t = some ⟨"Calculator".data, a⟩) ∧
    (∀ (t : Str) (a : Args), (wsTrigger t = false ∨ wsExtract t = none) →
      (calcTrigger t = false ∨ calcExtract t = none) →
      codeTrigger t = true → codeExtract t = some a →
      detectIntent t = some ⟨"CodeRunner".data, a⟩) ∧
    (∀ t : Str, (wsTrigger t = false ∨ wsExtract t = none) →
      (calcTrigger t = false ∨ calcExtract t = none) →
      (codeTrigger t = false ∨ codeExtract t = none) →
      detectIntent t = none) := by
  have skip1 : ∀ t : Str, (wsTrigger t = false ∨ wsExtract t = none) →
      detectIntent t = detectIntentAux (TOOL_PATTERNS.drop 1) t := by
    intro t h
    rw [detectIntent, TOOL_PATTERNS, detectIntentAux]
    rcases h with h | h
    · simp [h]
    · cases hw : wsTrigger t <;> simp [h]
  have skip2 : ∀ t : Str, (calcTrigger t = false ∨ calcExtract t = none) →
      detectIntentAux (TOOL_PATTERNS.drop 1) t =
        detectIntentAux (TOOL_PATTERNS.drop 2) t := by
    intro t h
    rw [TOOL_PATTERNS]
    show detectIntentAux [_, _] t = detectIntentAux [_] t
    rw [detectIntentAux]
    rcases h with h | h
    · simp [h]
    · cases hw : calcTrigger t <;> simp [h]
  refine ⟨?_, ?_, ?_, ?_, ?_⟩
  · intro t c h
    rw [detectIntent, TOOL_PATTERNS, detectIntentAux] at h
    by_cases h1 : wsTrigger t
    · simp only [h1, if_true] at h
      cases he : wsExtract t with
      | some a => rw [he] at h; exact Or.inl (by cases h; rfl)
      | none =>
        rw [he] at h
        rw [detectIntentAux] at h
        by_cases h2 : calcTrigger t
        · simp only [h2, if_true] at h
          cases hc : calcExtract t with
          | some a => rw [hc] at h; exact Or.inr (Or.inl (by cases h; rfl))
          | none =>
            rw [hc] at h
            rw [detectIntentAux] at h
            by_cases h3 : codeTrigger t
            · simp only [h3, if_true] at h
              cases hk : codeExtract t with
              | some a => rw [hk] at h; exact Or.inr (Or.inr (by cases h; rfl))
              | none => rw [hk] at h; cases h
            · simp only [h3, if_false] at h; cases h
        · simp only [h2, if_false] at h
          rw [detectIntentAux] at h
          by_cases h3 : codeTrigger t
          · simp only [h3, if_true] at h
            cases hk : codeExtract t with
            | some a => rw [hk] at h; exact Or.inr (Or.inr (by cases h; rfl))
            | none => rw [hk] at h; cases h
          · simp only [h3, if_false] at h; cases h
    · simp only [h1, if_false] at h
      rw [detectIntentAux] at h
      by_cases h2 : calcTrigger t
      · simp only [h2, if_true] at h
        cases hc : calcExtract t with
        | some a => rw [hc] at h; exact Or.inr (Or.inl (by cases h; rfl))
        | none =>
          rw [hc] at h
          rw [detectIntentAux] at h
          by_cases h3 : codeTrigger t
          · simp only [h3, if_true] at h
            cases hk : codeExtract t with
            | some a => rw [hk] at h; exact Or.inr (Or.inr (by cases h; rfl))
            | none => rw [hk] at h; cases h
          · simp only [h3, if_false] at h; cases h
      · simp only [h2, if_false] at h
        rw [detectIntentAux] at h
        by_cases h3 : codeTrigger t
        · simp only [h3, if_true] at h
          cases hk : codeExtract t with
          | some a => rw [hk] at h; exact Or.inr (Or.inr (by cases h; rfl))
          | none => rw [hk] at h; cases h
        · simp only [h3, if_false] at h; cases h
  · intro t a h1 h2
    rw [detectIntent, TOOL_PATTERNS, detectIntentAux]
    simp [h1, h2]
  · intro t a h0 h1 h2
    rw [skip1 t h0, TOOL_PATTERNS]
    show detectIntentAux [_, _] t = _
    rw [detectIntentAux]
    simp [h1, h2]
  · intro t a h0 hc h1 h2
    rw [skip1 t h0, skip2 t hc, TOOL_PATTERNS]
    show detectIntentAux [_] t = _
    rw [detectIntentAux]
    simp [h1, h2]
  · intro t h0 hc hk
    rw [skip1 t h0, skip2 t hc, TOOL_PATTERNS]
    show detectIntentAux [_] t = _
    rw [detectIntentAux]
    rcases hk with h | h
    · simp [h, detectIntentAux]
    · cases hw : codeTrigger t <;> simp [h, detectIntentAux]

/-- Witness for C10: on `"calculate 2+2"` the WebSearch trigger fails and
the Calculator pattern (second in order) produces the call. -/
theorem C10_detectIntent_witness :
    detectIntent "calculate 2+2".data =
      some ⟨"Calculator".data, .calc "2+2".data "evaluate".data⟩ :=
  C10_detectIntent_order.2.2.1 "calculate 2+2".data (.calc "2+2".data "evaluate".data)
    (Or.inl (by decide)) (by decide) (by decide)

end KimiChat
